import Mathlib

/-!
# Verification of the command dispatch and session-configuration layer of conni-cli

Shallow embedding of the core of the `conni-cli` repository: the REPL command
dispatcher (`src/cli/wrapper.ts`), the API-wrapper layer
(`src/utils/confluence-client.ts`), and the `ConfluenceUtil` operation layer
together with the headless runner.  The `ConfluenceUtil` implementation file
(`src/utils/confluence-utils.ts`) and the headless runner
(`src/commands/runner.ts`) are not part of the source snapshot — only their
unit tests and callers are — so those definitions are modelled from the
specification, cross-checked against the repository's unit tests, and are
marked `Modelled from the spec:` in their doc comments.

Sections:
1. JSON values, the 2-space-indented serializer (`formatAsJson`, the model of
   `JSON.stringify(data, null, 2)`), a structural deserializer (`jsonParse`),
   and the round-trip theorem.
2. The client pool (`getClient` / `clearClients`).
3. The dispatcher (`dispatchStep`, from `wrapper.runCommand`), operation
   bodies (`runBody`), and the result envelope (`runOp`).
4. The headless runner and the REPL format command.
-/

/-- JSON values as used for argument bags, remote payloads and rendering.
Numbers are modelled as integers (every number the program's claims touch is
an integer); objects are ordered field lists, as in the JavaScript runtime. -/
inductive Json where
  | null
  | bool (b : Bool)
  | num (n : Int)
  | str (s : String)
  | arr (xs : List Json)
  | obj (fields : List (String × Json))

namespace Json

/-! ## Sizes (used as parser fuel bounds) -/

mutual
/-- Node count of a JSON value, a lower bound for its serialized length. -/
def jsize : Json → Nat
  | .null | .bool _ | .num _ | .str _ => 1
  | .arr es => 2 + lsize es
  | .obj ms => 2 + fsize ms

/-- Node count of an array's element list. -/
def lsize : List Json → Nat
  | [] => 0
  | e :: es => 1 + jsize e + lsize es

/-- Node count of an object's field list. -/
def fsize : List (String × Json) → Nat
  | [] => 0
  | (_, w) :: ms => 1 + jsize w + fsize ms
end

theorem jsize_pos : ∀ j : Json, 1 ≤ jsize j
  | .null => le_refl 1
  | .bool _ => le_refl 1
  | .num _ => le_refl 1
  | .str _ => le_refl 1
  | .arr _ => by simp [jsize]; omega
  | .obj _ => by simp [jsize]; omega

end Json

/-! ## Serialization: the model of `JSON.stringify(data, null, 2)` -/

/-- Decimal digit characters. -/
def digitChar : Nat → Char
  | 0 => '0' | 1 => '1' | 2 => '2' | 3 => '3' | 4 => '4'
  | 5 => '5' | 6 => '6' | 7 => '7' | 8 => '8' | 9 => '9'
  | _ => '*'

/-- Decimal digits of `n`, most significant first, with explicit fuel
(`natDigits` supplies enough). -/
def natDigitsGo : Nat → Nat → List Char
  | 0, _ => []
  | f + 1, n => if n < 10 then [digitChar n] else natDigitsGo f (n / 10) ++ [digitChar (n % 10)]

/-- Decimal digits of `n`, most significant first. -/
def natDigits (n : Nat) : List Char := natDigitsGo (n + 1) n

/-- Decimal rendering of an integer. -/
def intChars (i : Int) : List Char :=
  if i < 0 then '-' :: natDigits i.natAbs else natDigits i.natAbs

/-- JSON string escaping of one character (quote, backslash and the common
control characters, as `JSON.stringify` emits them). -/
def escChar (c : Char) : List Char :=
  if c = '"' then ['\\', '"']
  else if c = '\\' then ['\\', '\\']
  else if c = '\n' then ['\\', 'n']
  else if c = '\t' then ['\\', 't']
  else if c = '\r' then ['\\', 'r']
  else [c]

/-- JSON string escaping of a character list. -/
def escChars : List Char → List Char
  | [] => []
  | c :: cs => escChar c ++ escChars cs

/-- A serialized string literal: quote, escaped body, quote. -/
def serStr (s : String) : List Char := '"' :: escChars s.data ++ ['"']

/-- The 2-space indentation prefix at nesting depth `n`. -/
def indentChars (n : Nat) : List Char := List.replicate (2 * n) ' '

mutual
/-- Modelled from the spec: `ConfluenceUtil.formatAsJson` (file
`src/utils/confluence-utils.ts` is absent from the snapshot) renders data via
`JSON.stringify(data, null, 2)` — a stable 2-space-indented structural
serialization.  `serVal ind j` is that rendering at nesting depth `ind`. -/
def serVal (ind : Nat) : Json → List Char
  | .null => (['n', 'u', 'l', 'l'] : List Char)
  | .bool true => (['t', 'r', 'u', 'e'] : List Char)
  | .bool false => (['f', 'a', 'l', 's', 'e'] : List Char)
  | .num i => intChars i
  | .str s => serStr s
  | .arr [] => ['[', ']']
  | .arr (x :: xs) =>
      '[' :: '\n' :: indentChars (ind + 1) ++ serVal (ind + 1) x ++ serTail (ind + 1) xs
        ++ '\n' :: indentChars ind ++ [']']
  | .obj [] => ['{', '}']
  | .obj ((k, v) :: fs) =>
      '{' :: '\n' :: indentChars (ind + 1) ++ serStr k ++ ':' :: ' '
        :: serVal (ind + 1) v ++ serFTail (ind + 1) fs ++ '\n' :: indentChars ind ++ ['}']

/-- Serialization of the second and later array elements (comma, newline,
indent, element). -/
def serTail (ind : Nat) : List Json → List Char
  | [] => []
  | e :: es => ',' :: '\n' :: indentChars ind ++ serVal ind e ++ serTail ind es

/-- Serialization of the second and later object fields. -/
def serFTail (ind : Nat) : List (String × Json) → List Char
  | [] => []
  | (key, w) :: ms =>
      ',' :: '\n' :: indentChars ind ++ serStr key ++ ':' :: ' '
        :: serVal ind w ++ serFTail ind ms
end

/-- Modelled from the spec: `ConfluenceUtil.formatAsJson` — the `json` format
rendering, `JSON.stringify(data, null, 2)`. -/
def formatAsJson (j : Json) : String := ⟨serVal 0 j⟩

/-- Modelled from the spec: `ConfluenceUtil.formatAsToon` — null data renders
as the empty string under `toon`; otherwise the external `encode` collaborator
(passed here as the function `enc`) renders it. -/
def formatAsToon (enc : Json → String) : Json → String
  | .null => ""
  | d => enc d

/-- Modelled from the spec: `ConfluenceUtil.formatResult(data, format)` —
`toon` rendering via the external encoder, `json` rendering via
`formatAsJson`. -/
def formatResult (enc : Json → String) (format : String) (data : Json) : String :=
  if format = "toon" then formatAsToon enc data else formatAsJson data

/-! ## Deserialization: standard structural JSON parsing -/

/-- JSON whitespace. -/
def isWs (c : Char) : Bool := c = ' ' || c = '\n' || c = '\t' || c = '\r'

/-- Drop leading whitespace. -/
def skipWs : List Char → List Char
  | [] => []
  | c :: cs => if isWs c then skipWs cs else c :: cs

/-- Consume an expected literal character sequence. -/
def expectChars : List Char → List Char → Option (List Char)
  | [], cs => some cs
  | _ :: _, [] => none
  | p :: ps, c :: cs => if c = p then expectChars ps cs else none

/-- Unescape the character after a backslash in a string literal. -/
def unescChar (c : Char) : Option Char :=
  if c = '"' then some '"'
  else if c = '\\' then some '\\'
  else if c = 'n' then some '\n'
  else if c = 't' then some '\t'
  else if c = 'r' then some '\r'
  else none

mutual
/-- Parse a string-literal body (after the opening quote) up to the closing
quote; returns the unescaped body and the rest of the input. -/
def parseStrAux : List Char → Option (List Char × List Char)
  | [] => none
  | c :: cs =>
      if c = '"' then some ([], cs)
      else if c = '\\' then parseStrEsc cs
      else
        match parseStrAux cs with
        | none => none
        | some (s, r) => some (c :: s, r)

/-- Parse the remainder of a string literal after a backslash. -/
def parseStrEsc : List Char → Option (List Char × List Char)
  | [] => none
  | e :: rest =>
      match unescChar e with
      | none => none
      | some x =>
          match parseStrAux rest with
          | none => none
          | some (s, r) => some (x :: s, r)
end

/-- Numeric value of a digit character. -/
def digitVal (c : Char) : Nat := c.toNat - 48

/-- Split off the maximal leading run of digit characters. -/
def takeDigits : List Char → List Char × List Char
  | [] => ([], [])
  | c :: cs =>
      if c.isDigit then
        let p := takeDigits cs
        (c :: p.1, p.2)
      else ([], c :: cs)

/-- Numeric value of a digit run. -/
def digitsVal (ds : List Char) : Nat := ds.foldl (fun a c => 10 * a + digitVal c) 0

/-- Parse a nonempty digit run into a natural number. -/
def parseNatPart (cs : List Char) : Option (Nat × List Char) :=
  match takeDigits cs with
  | ([], _) => none
  | (ds, r) => some (digitsVal ds, r)

/-- Parse an optionally signed integer literal. -/
def parseNum : List Char → Option (Json × List Char)
  | [] => none
  | c :: cs =>
      if c = '-' then (parseNatPart cs).map (fun p => (.num (-(p.1 : Int)), p.2))
      else (parseNatPart (c :: cs)).map (fun p => (.num (p.1 : Int), p.2))

/-- Whether a list starts with the given character. -/
def headIs (c : Char) : List Char → Bool
  | [] => false
  | x :: _ => x = c

mutual
/-- Structural JSON parser for one value, fuel-bounded; leading whitespace is
skipped, and the unconsumed rest of the input is returned. -/
def parseVal : Nat → List Char → Option (Json × List Char)
  | 0, _ => none
  | f + 1, cs =>
      match skipWs cs with
      | [] => none
      | c :: r =>
          if c = 'n' then (expectChars ['u', 'l', 'l'] r).map (fun rr => (.null, rr))
          else if c = 't' then (expectChars ['r', 'u', 'e'] r).map (fun rr => (.bool true, rr))
          else if c = 'f' then (expectChars ['a', 'l', 's', 'e'] r).map (fun rr => (.bool false, rr))
          else if c = '"' then (parseStrAux r).map (fun p => (.str ⟨p.1⟩, p.2))
          else if c = '[' then
            if headIs ']' (skipWs r) then some (.arr [], (skipWs r).tail)
            else (parseElems f (skipWs r)).map (fun p => (.arr p.1, p.2))
          else if c = '{' then
            if headIs '}' (skipWs r) then some (.obj [], (skipWs r).tail)
            else (parseFields f (skipWs r)).map (fun p => (.obj p.1, p.2))
          else parseNum (c :: r)

/-- Parse the comma-separated elements of a nonempty array, up to and
including the closing bracket. -/
def parseElems : Nat → List Char → Option (List Json × List Char)
  | 0, _ => none
  | f + 1, cs =>
      match parseVal f cs with
      | none => none
      | some (x, r) =>
          if headIs ',' (skipWs r) then
            match parseElems f (skipWs r).tail with
            | none => none
            | some (xs, r3) => some (x :: xs, r3)
          else if headIs ']' (skipWs r) then some ([x], (skipWs r).tail)
          else none

/-- Parse the comma-separated fields of a nonempty object, up to and
including the closing brace. -/
def parseFields : Nat → List Char → Option (List (String × Json) × List Char)
  | 0, _ => none
  | f + 1, cs =>
      if headIs '"' (skipWs cs) then
        match parseStrAux (skipWs cs).tail with
        | none => none
        | some (k, r1) =>
            if headIs ':' (skipWs r1) then
              match parseVal f (skipWs r1).tail with
              | none => none
              | some (v, r3) =>
                  if headIs ',' (skipWs r3) then
                    match parseFields f (skipWs r3).tail with
                    | none => none
                    | some (fs, r5) => some ((⟨k⟩, v) :: fs, r5)
                  else if headIs '}' (skipWs r3) then some ([(⟨k⟩, v)], (skipWs r3).tail)
                  else none
            else none
      else none
end

/-- Standard structural deserialization of a whole document: parse one value
and require only whitespace to remain. -/
def jsonParse (s : String) : Option Json :=
  match parseVal (s.data.length + 1) s.data with
  | some (j, rest) => if skipWs rest = [] then some j else none
  | none => none

/-! ## Round-trip helper lemmas -/

/-- The continuation after a serialized number must not begin with a digit. -/
def restOk : List Char → Bool
  | [] => true
  | c :: _ => !c.isDigit

theorem skipWs_cons_nonws (c : Char) (cs : List Char) (h : isWs c = false) :
    skipWs (c :: cs) = c :: cs := by
  simp [skipWs, h]

theorem skipWs_cons_ws (c : Char) (cs : List Char) (h : isWs c = true) :
    skipWs (c :: cs) = skipWs cs := by
  simp [skipWs, h]

theorem skipWs_replicate_space (m : Nat) (cs : List Char) :
    skipWs (List.replicate m ' ' ++ cs) = skipWs cs := by
  induction m with
  | zero => simp
  | succ m ih =>
      rw [List.replicate_succ, List.cons_append, skipWs_cons_ws _ _ (by decide)]
      exact ih

theorem skipWs_indent (n : Nat) (cs : List Char) :
    skipWs (indentChars n ++ cs) = skipWs cs := by
  unfold indentChars; exact skipWs_replicate_space _ _

theorem parseVal_congr (f : Nat) (a b : List Char) (h : skipWs a = skipWs b) :
    parseVal f a = parseVal f b := by
  cases f with
  | zero => rfl
  | succ f => simp only [parseVal]; rw [h]

theorem parseElems_congr (f : Nat) (a b : List Char) (h : skipWs a = skipWs b) :
    parseElems f a = parseElems f b := by
  cases f with
  | zero => rfl
  | succ f => simp only [parseElems]; rw [parseVal_congr f a b h]

theorem parseFields_congr (f : Nat) (a b : List Char) (h : skipWs a = skipWs b) :
    parseFields f a = parseFields f b := by
  cases f with
  | zero => rfl
  | succ f => simp only [parseFields]; rw [h]

/-- The string-literal parser inverts the escaper. -/
theorem parseStrAux_esc : ∀ (l : List Char) (rest : List Char),
    parseStrAux (escChars l ++ '"' :: rest) = some (l, rest)
  | [], rest => by
      rw [escChars, List.nil_append, parseStrAux]
      simp
  | c :: cs, rest => by
      by_cases h1 : c = '"'
      · subst h1
        rw [escChars, show escChar '"' = ['\\', '"'] from rfl, List.append_assoc,
          List.cons_append, List.cons_append, List.nil_append, parseStrAux]
        simp [parseStrEsc, unescChar, parseStrAux_esc cs rest]
      · by_cases h2 : c = '\\'
        · subst h2
          rw [escChars, show escChar '\\' = ['\\', '\\'] from rfl, List.append_assoc,
            List.cons_append, List.cons_append, List.nil_append, parseStrAux]
          simp [parseStrEsc, unescChar, parseStrAux_esc cs rest]
        · by_cases h3 : c = '\n'
          · subst h3
            rw [escChars, show escChar '\n' = ['\\', 'n'] from rfl, List.append_assoc,
              List.cons_append, List.cons_append, List.nil_append, parseStrAux]
            simp [parseStrEsc, unescChar, parseStrAux_esc cs rest]
          · by_cases h4 : c = '\t'
            · subst h4
              rw [escChars, show escChar '\t' = ['\\', 't'] from rfl, List.append_assoc,
                List.cons_append, List.cons_append, List.nil_append, parseStrAux]
              simp [parseStrEsc, unescChar, parseStrAux_esc cs rest]
            · by_cases h5 : c = '\r'
              · subst h5
                rw [escChars, show escChar '\r' = ['\\', 'r'] from rfl, List.append_assoc,
                  List.cons_append, List.cons_append, List.nil_append, parseStrAux]
                simp [parseStrEsc, unescChar, parseStrAux_esc cs rest]
              · have hesc : escChar c = [c] := by
                  simp [escChar, h1, h2, h3, h4, h5]
                rw [escChars, hesc, List.append_assoc, List.cons_append, List.nil_append,
                  parseStrAux]
                simp [h1, h2, parseStrAux_esc cs rest]

theorem digitChar_isDigit (n : Nat) (h : n < 10) : (digitChar n).isDigit = true := by
  interval_cases n <;> decide

theorem digitVal_digitChar (n : Nat) (h : n < 10) : digitVal (digitChar n) = n := by
  interval_cases n <;> decide

theorem natDigitsGo_digits : ∀ (f n : Nat), ∀ c ∈ natDigitsGo f n, c.isDigit = true := by
  intro f
  induction f with
  | zero => intro n c h; simp [natDigitsGo] at h
  | succ f ih =>
      intro n c h
      by_cases h10 : n < 10
      · simp [natDigitsGo, h10] at h
        subst h; exact digitChar_isDigit n h10
      · simp [natDigitsGo, h10] at h
        rcases h with h | h
        · exact ih _ c h
        · subst h; exact digitChar_isDigit _ (Nat.mod_lt _ (by omega))

theorem natDigitsGo_ne_nil (f n : Nat) : natDigitsGo (f + 1) n ≠ [] := by
  by_cases h10 : n < 10 <;> simp [natDigitsGo, h10]

theorem natDigits_head (n : Nat) :
    ∃ c t, natDigits n = c :: t ∧ c.isDigit = true := by
  cases h : natDigits n with
  | nil => exact absurd h (natDigitsGo_ne_nil n n)
  | cons c t =>
      refine ⟨c, t, rfl, ?_⟩
      have : c ∈ natDigits n := by rw [h]; exact List.mem_cons_self c t
      exact natDigitsGo_digits _ _ c this

theorem foldl_natDigitsGo : ∀ (f n a : Nat), n < f →
    List.foldl (fun a c => 10 * a + digitVal c) a (natDigitsGo f n)
      = a * 10 ^ (natDigitsGo f n).length + n := by
  intro f
  induction f with
  | zero => intro n a h; omega
  | succ f ih =>
      intro n a h
      by_cases h10 : n < 10
      · simp [natDigitsGo, h10, digitVal_digitChar n h10]; ring
      · have hdiv : n / 10 < f := by
          have h1 : n / 10 < n := Nat.div_lt_self (by omega) (by omega)
          omega
        simp only [natDigitsGo, h10, if_false, List.foldl_append, List.length_append,
          List.foldl_cons, List.foldl_nil, List.length_cons, List.length_nil]
        rw [ih (n / 10) a hdiv, digitVal_digitChar _ (Nat.mod_lt _ (by omega))]
        have : 10 ^ (0 + 1) = 10 := by norm_num
        rw [pow_succ]
        have hmod := Nat.div_add_mod n 10
        ring_nf
        omega

theorem digitsVal_natDigits (n : Nat) : digitsVal (natDigits n) = n := by
  unfold digitsVal natDigits
  rw [foldl_natDigitsGo (n + 1) n 0 (by omega)]
  simp

theorem takeDigits_append (digs suffix : List Char)
    (hd : ∀ d ∈ digs, d.isDigit = true) (hr : restOk suffix = true) :
    takeDigits (digs ++ suffix) = (digs, suffix) := by
  induction digs with
  | nil =>
      cases suffix with
      | nil => rfl
      | cons d tl =>
          simp only [restOk, Bool.not_eq_true'] at hr
          simp [takeDigits, hr]
  | cons d digs ih =>
      have hc : d.isDigit = true := hd d (List.mem_cons_self d digs)
      have hcs : ∀ x ∈ digs, x.isDigit = true := fun x hx => hd x (List.mem_cons_of_mem d hx)
      simp [takeDigits, hc, ih hcs]

theorem parseNatPart_digits (n : Nat) (rest : List Char) (hr : restOk rest = true) :
    parseNatPart (natDigits n ++ rest) = some (n, rest) := by
  unfold parseNatPart
  rw [takeDigits_append (natDigits n) rest
    (fun c hc => natDigitsGo_digits (n + 1) n c hc) hr]
  obtain ⟨c, t, hct, _⟩ := natDigits_head n
  rw [hct]
  show some (digitsVal (c :: t), rest) = some (n, rest)
  rw [← hct, digitsVal_natDigits]

theorem isDigit_ne_minus (c : Char) (h : c.isDigit = true) : c ≠ '-' := by
  rintro rfl; exact absurd h (by decide)

theorem isDigit_nonws (c : Char) (h : c.isDigit = true) : isWs c = false := by
  have h1 : c ≠ ' ' := by rintro rfl; exact absurd h (by decide)
  have h2 : c ≠ '\n' := by rintro rfl; exact absurd h (by decide)
  have h3 : c ≠ '\t' := by rintro rfl; exact absurd h (by decide)
  have h4 : c ≠ '\r' := by rintro rfl; exact absurd h (by decide)
  simp [isWs, h1, h2, h3, h4]

theorem parseNum_intChars (i : Int) (rest : List Char) (hr : restOk rest = true) :
    parseNum (intChars i ++ rest) = some (.num i, rest) := by
  unfold intChars
  by_cases hi : i < 0
  · simp only [hi, if_true, List.cons_append, parseNum, reduceIte]
    rw [parseNatPart_digits _ _ hr]
    have hv : -(i.natAbs : Int) = i := by omega
    simp only [Option.map_some', hv]
  · simp only [hi, if_false]
    obtain ⟨c, t, hct, hdig⟩ := natDigits_head i.natAbs
    rw [hct, List.cons_append, parseNum, if_neg (isDigit_ne_minus c hdig),
      ← List.cons_append, ← hct, parseNatPart_digits _ _ hr]
    have hv : ((i.natAbs : Int)) = i := by omega
    simp only [Option.map_some', hv]

/-! ## Parser dispatch lemmas (one per leading character) -/

theorem isDigit_notSpecial (ch : Char) (h : ch.isDigit = true) :
    isWs ch = false ∧ ch ≠ 'n' ∧ ch ≠ 't' ∧ ch ≠ 'f' ∧ ch ≠ '"' ∧ ch ≠ '[' ∧ ch ≠ '{' ∧
      ch ≠ ']' ∧ ch ≠ '}' :=
  ⟨isDigit_nonws ch h,
    by rintro rfl; exact absurd h (by decide), by rintro rfl; exact absurd h (by decide),
    by rintro rfl; exact absurd h (by decide), by rintro rfl; exact absurd h (by decide),
    by rintro rfl; exact absurd h (by decide), by rintro rfl; exact absurd h (by decide),
    by rintro rfl; exact absurd h (by decide), by rintro rfl; exact absurd h (by decide)⟩

theorem intChars_head (i : Int) :
    ∃ ch tl, intChars i = ch :: tl ∧ isWs ch = false ∧ ch ≠ 'n' ∧ ch ≠ 't' ∧ ch ≠ 'f' ∧
      ch ≠ '"' ∧ ch ≠ '[' ∧ ch ≠ '{' ∧ ch ≠ ']' ∧ ch ≠ '}' := by
  unfold intChars
  by_cases hi : i < 0
  · exact ⟨'-', natDigits i.natAbs, by simp [hi], by decide⟩
  · obtain ⟨ch, tl, hct, hdig⟩ := natDigits_head i.natAbs
    obtain ⟨w, n1, n2, n3, n4, n5, n6, n7, n8⟩ := isDigit_notSpecial ch hdig
    exact ⟨ch, tl, by simp [hi, hct], w, n1, n2, n3, n4, n5, n6, n7, n8⟩

/-- The first character of any serialized value is not whitespace and not a
closing delimiter. -/
theorem serVal_head (ind : Nat) (j : Json) :
    ∃ ch tl, serVal ind j = ch :: tl ∧ isWs ch = false ∧ ch ≠ ']' ∧ ch ≠ '}' := by
  cases j with
  | num i =>
      obtain ⟨ch, tl, hct, w, _, _, _, _, _, _, n7, n8⟩ := intChars_head i
      exact ⟨ch, tl, by rw [show serVal ind (.num i) = intChars i from rfl, hct], w, n7, n8⟩
  | null => exact ⟨'n', ['u', 'l', 'l'], rfl, by decide⟩
  | bool b =>
      cases b
      · exact ⟨'f', _, rfl, by decide⟩
      · exact ⟨'t', _, rfl, by decide⟩
  | str s => exact ⟨'"', _, rfl, by decide⟩
  | arr xs => cases xs <;> exact ⟨'[', _, rfl, by decide⟩
  | obj fs =>
      cases fs with
      | cons f fs =>
          obtain ⟨k, v⟩ := f
          exact ⟨'\x7b', _, rfl, by decide⟩
      | nil => exact ⟨'\x7b', _, rfl, by decide⟩

theorem parseVal_succ_n (f : Nat) (r : List Char) :
    parseVal (f + 1) ('n' :: r) = (expectChars ['u', 'l', 'l'] r).map (fun rr => (.null, rr)) := by
  rw [parseVal, skipWs_cons_nonws _ _ (by decide)]
  simp

theorem parseVal_succ_t (f : Nat) (r : List Char) :
    parseVal (f + 1) ('t' :: r)
      = (expectChars ['r', 'u', 'e'] r).map (fun rr => (.bool true, rr)) := by
  rw [parseVal, skipWs_cons_nonws _ _ (by decide)]
  simp

theorem parseVal_succ_f (f : Nat) (r : List Char) :
    parseVal (f + 1) ('f' :: r)
      = (expectChars ['a', 'l', 's', 'e'] r).map (fun rr => (.bool false, rr)) := by
  rw [parseVal, skipWs_cons_nonws _ _ (by decide)]
  simp

theorem parseVal_succ_quote (f : Nat) (r : List Char) :
    parseVal (f + 1) ('"' :: r) = (parseStrAux r).map (fun p => (.str ⟨p.1⟩, p.2)) := by
  rw [parseVal, skipWs_cons_nonws _ _ (by decide)]
  simp

theorem parseVal_succ_lbrack (f : Nat) (r : List Char) :
    parseVal (f + 1) ('[' :: r) =
      (if headIs ']' (skipWs r) then some (.arr [], (skipWs r).tail)
       else (parseElems f (skipWs r)).map (fun p => (.arr p.1, p.2))) := by
  rw [parseVal, skipWs_cons_nonws _ _ (by decide)]
  simp

theorem parseVal_succ_lbrace (f : Nat) (r : List Char) :
    parseVal (f + 1) ('{' :: r) =
      (if headIs '}' (skipWs r) then some (.obj [], (skipWs r).tail)
       else (parseFields f (skipWs r)).map (fun p => (.obj p.1, p.2))) := by
  rw [parseVal, skipWs_cons_nonws _ _ (by decide)]
  simp

theorem parseVal_succ_other (f : Nat) (c : Char) (r : List Char)
    (hws : isWs c = false) (h1 : c ≠ 'n') (h2 : c ≠ 't') (h3 : c ≠ 'f') (h4 : c ≠ '"')
    (h5 : c ≠ '[') (h6 : c ≠ '{') :
    parseVal (f + 1) (c :: r) = parseNum (c :: r) := by
  rw [parseVal, skipWs_cons_nonws _ _ hws]
  simp [h1, h2, h3, h4, h5, h6]

/-! ## The round-trip induction -/

theorem serStr_cons (k : String) (T : List Char) :
    serStr k ++ T = '"' :: (escChars k.data ++ ('"' :: T)) := by
  simp [serStr]

/-- Parsing inverts serialization: values, array tails and object tails,
by induction on the parser fuel. -/
theorem parse_ser (fuel : Nat) :
    (∀ (j : Json) (ind : Nat) (rest : List Char), Json.jsize j ≤ fuel → restOk rest = true →
        parseVal fuel (serVal ind j ++ rest) = some (j, rest)) ∧
    (∀ (x : Json) (xs : List Json) (ind indE : Nat) (rest : List Char),
        Json.lsize (x :: xs) ≤ fuel → restOk rest = true →
        parseElems fuel
            (serVal ind x ++ (serTail ind xs ++ ('\n' :: (indentChars indE ++ (']' :: rest)))))
          = some (x :: xs, rest)) ∧
    (∀ (k : String) (v : Json) (fs : List (String × Json)) (ind indE : Nat) (rest : List Char),
        Json.fsize ((k, v) :: fs) ≤ fuel → restOk rest = true →
        parseFields fuel
            (serStr k ++ (':' :: ' ' :: (serVal ind v ++ (serFTail ind fs
              ++ ('\n' :: (indentChars indE ++ ('}' :: rest)))))))
          = some ((k, v) :: fs, rest)) := by
  induction fuel with
  | zero =>
      refine ⟨?_, ?_, ?_⟩
      · intro j ind rest hsz _
        have := Json.jsize_pos j; omega
      · intro x xs ind indE rest hsz _
        simp only [Json.lsize] at hsz; omega
      · intro k v fs ind indE rest hsz _
        simp only [Json.fsize] at hsz; omega
  | succ f ih =>
      obtain ⟨ihP, ihQ, ihR⟩ := ih
      refine ⟨?_, ?_, ?_⟩
      · -- values
        intro j ind rest hsz hrest
        cases j with
        | null =>
            rw [show serVal ind Json.null ++ rest = 'n' :: ('u' :: 'l' :: 'l' :: rest) from rfl,
              parseVal_succ_n]
            simp [expectChars]
        | bool b =>
            cases b with
            | true =>
                rw [show serVal ind (Json.bool true) ++ rest
                    = 't' :: ('r' :: 'u' :: 'e' :: rest) from rfl, parseVal_succ_t]
                simp [expectChars]
            | false =>
                rw [show serVal ind (Json.bool false) ++ rest
                    = 'f' :: ('a' :: 'l' :: 's' :: 'e' :: rest) from rfl, parseVal_succ_f]
                simp [expectChars]
        | num i =>
            obtain ⟨c, t, hct, w, n1, n2, n3, n4, n5, n6, _, _⟩ := intChars_head i
            rw [show serVal ind (Json.num i) = intChars i from rfl, hct, List.cons_append,
              parseVal_succ_other f c _ w n1 n2 n3 n4 n5 n6, ← List.cons_append, ← hct]
            exact parseNum_intChars i rest hrest
        | str s =>
            rw [show serVal ind (Json.str s) ++ rest
                = '"' :: (escChars s.data ++ ('"' :: rest)) from by simp [serVal, serStr],
              parseVal_succ_quote, parseStrAux_esc s.data rest]
            rfl
        | arr xs =>
            cases xs with
            | nil =>
                rw [show serVal ind (Json.arr []) ++ rest = '[' :: (']' :: rest) from rfl,
                  parseVal_succ_lbrack, skipWs_cons_nonws _ _ (by decide)]
                simp [headIs]
            | cons x xs =>
                have hsz' : Json.lsize (x :: xs) ≤ f := by
                  simp [Json.jsize] at hsz; omega
                have hnorm : serVal ind (Json.arr (x :: xs)) ++ rest
                    = '[' :: ('\n' :: (indentChars (ind + 1) ++ (serVal (ind + 1) x
                        ++ (serTail (ind + 1) xs
                          ++ ('\n' :: (indentChars ind ++ (']' :: rest))))))) := by
                  rw [serVal]
                  simp [List.append_assoc]
                rw [hnorm, parseVal_succ_lbrack]
                have hskip : skipWs ('\n' :: (indentChars (ind + 1) ++ (serVal (ind + 1) x
                    ++ (serTail (ind + 1) xs ++ ('\n' :: (indentChars ind ++ (']' :: rest)))))))
                    = serVal (ind + 1) x ++ (serTail (ind + 1) xs
                        ++ ('\n' :: (indentChars ind ++ (']' :: rest)))) := by
                  rw [skipWs_cons_ws _ _ (by decide), skipWs_indent]
                  obtain ⟨c0, t0, hc0, hws0, _, _⟩ := serVal_head (ind + 1) x
                  rw [hc0, List.cons_append, skipWs_cons_nonws _ _ hws0]
                rw [hskip]
                have hhead : headIs ']' (serVal (ind + 1) x ++ (serTail (ind + 1) xs
                    ++ ('\n' :: (indentChars ind ++ (']' :: rest))))) = false := by
                  obtain ⟨c0, t0, hc0, _, hb0, _⟩ := serVal_head (ind + 1) x
                  rw [hc0, List.cons_append]
                  simp [headIs, hb0]
                rw [hhead]
                simp only [Bool.false_eq_true, if_false]
                rw [ihQ x xs (ind + 1) ind rest hsz' hrest]
                rfl
        | obj fs =>
            cases fs with
            | nil =>
                rw [show serVal ind (Json.obj []) ++ rest = '{' :: ('}' :: rest) from rfl,
                  parseVal_succ_lbrace, skipWs_cons_nonws _ _ (by decide)]
                simp [headIs]
            | cons kv fs =>
                obtain ⟨k, v⟩ := kv
                have hsz' : Json.fsize ((k, v) :: fs) ≤ f := by
                  simp [Json.jsize] at hsz; omega
                have hnorm : serVal ind (Json.obj ((k, v) :: fs)) ++ rest
                    = '{' :: ('\n' :: (indentChars (ind + 1) ++ (serStr k
                        ++ (':' :: ' ' :: (serVal (ind + 1) v ++ (serFTail (ind + 1) fs
                          ++ ('\n' :: (indentChars ind ++ ('}' :: rest))))))))) := by
                  rw [serVal]
                  simp [List.append_assoc]
                rw [hnorm, parseVal_succ_lbrace]
                have hskip : skipWs ('\n' :: (indentChars (ind + 1) ++ (serStr k
                    ++ (':' :: ' ' :: (serVal (ind + 1) v ++ (serFTail (ind + 1) fs
                      ++ ('\n' :: (indentChars ind ++ ('}' :: rest)))))))))
                    = serStr k ++ (':' :: ' ' :: (serVal (ind + 1) v ++ (serFTail (ind + 1) fs
                        ++ ('\n' :: (indentChars ind ++ ('}' :: rest)))))) := by
                  rw [skipWs_cons_ws _ _ (by decide), skipWs_indent, serStr_cons,
                    skipWs_cons_nonws _ _ (by decide)]
                rw [hskip]
                have hhead : headIs '}' (serStr k ++ (':' :: ' ' :: (serVal (ind + 1) v
                    ++ (serFTail (ind + 1) fs
                      ++ ('\n' :: (indentChars ind ++ ('}' :: rest))))))) = false := by
                  rw [serStr_cons]
                  simp [headIs]
                rw [hhead]
                simp only [Bool.false_eq_true, if_false]
                rw [ihR k v fs (ind + 1) ind rest hsz' hrest]
                rfl
      · -- array element lists
        intro x xs ind indE rest hsz hrest
        have hrest' : restOk (serTail ind xs
            ++ ('\n' :: (indentChars indE ++ (']' :: rest)))) = true := by
          cases xs with
          | nil => simp [serTail, restOk]
          | cons y ys => simp [serTail, restOk]
        have hszx : Json.jsize x ≤ f := by
          simp [Json.lsize] at hsz; omega
        have hx := ihP x ind (serTail ind xs ++ ('\n' :: (indentChars indE ++ (']' :: rest))))
          hszx hrest'
        rw [parseElems, hx]
        simp only []
        cases xs with
        | nil =>
            have hskip : skipWs (serTail ind ([] : List Json)
                ++ ('\n' :: (indentChars indE ++ (']' :: rest)))) = ']' :: rest := by
              simp only [serTail, List.nil_append]
              rw [skipWs_cons_ws _ _ (by decide), skipWs_indent,
                skipWs_cons_nonws _ _ (by decide)]
            rw [hskip]
            simp [headIs]
        | cons y ys =>
            have hT : serTail ind (y :: ys) ++ ('\n' :: (indentChars indE ++ (']' :: rest)))
                = ',' :: ('\n' :: (indentChars ind ++ (serVal ind y ++ (serTail ind ys
                    ++ ('\n' :: (indentChars indE ++ (']' :: rest))))))) := by
              rw [serTail]
              simp [List.append_assoc]
            rw [hT, skipWs_cons_nonws _ _ (by decide)]
            have hszys : Json.lsize (y :: ys) ≤ f := by
              have := Json.jsize_pos x
              simp [Json.lsize] at hsz ⊢; omega
            have hcong : parseElems f ('\n' :: (indentChars ind ++ (serVal ind y
                ++ (serTail ind ys ++ ('\n' :: (indentChars indE ++ (']' :: rest)))))))
                = parseElems f (serVal ind y ++ (serTail ind ys
                    ++ ('\n' :: (indentChars indE ++ (']' :: rest))))) := by
              apply parseElems_congr
              rw [skipWs_cons_ws _ _ (by decide), skipWs_indent]
            have hy := ihQ y ys ind indE rest hszys hrest
            simp [headIs, hcong, hy]
      · -- object field lists
        intro k v fs ind indE rest hsz hrest
        rw [serStr_cons, parseFields, skipWs_cons_nonws _ _ (by decide)]
        have hrest' : restOk (serFTail ind fs
            ++ ('\n' :: (indentChars indE ++ ('}' :: rest)))) = true := by
          cases fs with
          | nil => simp [serFTail, restOk]
          | cons g gs =>
              obtain ⟨k2, v2⟩ := g
              simp [serFTail, restOk]
        have hszv : Json.jsize v ≤ f := by
          simp [Json.fsize] at hsz; omega
        have hstr := parseStrAux_esc k.data
          (':' :: ' ' :: (serVal ind v ++ (serFTail ind fs
            ++ ('\n' :: (indentChars indE ++ ('}' :: rest))))))
        simp [headIs, hstr]
        rw [skipWs_cons_nonws _ _ (by decide)]
        have hv := ihP v ind (serFTail ind fs ++ ('\n' :: (indentChars indE ++ ('}' :: rest))))
          hszv hrest'
        have hcongv : parseVal f (' ' :: (serVal ind v ++ (serFTail ind fs
            ++ ('\n' :: (indentChars indE ++ ('}' :: rest))))))
            = parseVal f (serVal ind v ++ (serFTail ind fs
                ++ ('\n' :: (indentChars indE ++ ('}' :: rest))))) := by
          apply parseVal_congr
          rw [skipWs_cons_ws _ _ (by decide)]
        simp [headIs, hcongv, hv]
        cases fs with
        | nil =>
            have hskip : skipWs (serFTail ind ([] : List (String × Json))
                ++ ('\n' :: (indentChars indE ++ ('}' :: rest)))) = '}' :: rest := by
              simp only [serFTail, List.nil_append]
              rw [skipWs_cons_ws _ _ (by decide), skipWs_indent,
                skipWs_cons_nonws _ _ (by decide)]
            rw [hskip]
            simp [headIs]
        | cons g gs =>
            obtain ⟨k2, v2⟩ := g
            have hT : serFTail ind ((k2, v2) :: gs)
                ++ ('\n' :: (indentChars indE ++ ('}' :: rest)))
                = ',' :: ('\n' :: (indentChars ind ++ (serStr k2
                    ++ (':' :: ' ' :: (serVal ind v2 ++ (serFTail ind gs
                      ++ ('\n' :: (indentChars indE ++ ('}' :: rest))))))))) := by
              rw [serFTail]
              simp [List.append_assoc]
            rw [hT, skipWs_cons_nonws _ _ (by decide)]
            have hszg : Json.fsize ((k2, v2) :: gs) ≤ f := by
              have := Json.jsize_pos v
              simp [Json.fsize] at hsz ⊢; omega
            have hcong : parseFields f ('\n' :: (indentChars ind ++ (serStr k2
                ++ (':' :: ' ' :: (serVal ind v2 ++ (serFTail ind gs
                  ++ ('\n' :: (indentChars indE ++ ('}' :: rest)))))))))
                = parseFields f (serStr k2 ++ (':' :: ' ' :: (serVal ind v2
                    ++ (serFTail ind gs ++ ('\n' :: (indentChars indE ++ ('}' :: rest))))))) := by
              apply parseFields_congr
              rw [skipWs_cons_ws _ _ (by decide), skipWs_indent]
            have hg := ihR k2 v2 gs ind indE rest hszg hrest
            simp [headIs, hcong, hg]

/-! ## Serialized length bounds and the round-trip theorem -/

mutual
theorem jsize_le_len : ∀ (ind : Nat) (j : Json), Json.jsize j ≤ (serVal ind j).length
  | _, .null => by simp [serVal, Json.jsize]
  | _, .bool b => by cases b <;> simp [serVal, Json.jsize]
  | ind, .num i => by
      obtain ⟨c, t, hct, _⟩ := intChars_head i
      rw [show serVal ind (.num i) = intChars i from rfl, hct]
      simp [Json.jsize]
  | _, .str s => by simp [serVal, serStr, Json.jsize]
  | _, .arr [] => by simp [serVal, Json.jsize, Json.lsize]
  | ind, .arr (x :: xs) => by
      have h1 := jsize_le_len (ind + 1) x
      have h2 := lsize_le_len (ind + 1) xs
      simp only [serVal, Json.jsize, Json.lsize, List.length_cons, List.length_append,
        indentChars, List.length_replicate, List.length_nil]
      omega
  | _, .obj [] => by simp [serVal, Json.jsize, Json.fsize]
  | ind, .obj ((k, v) :: fs) => by
      have h1 := jsize_le_len (ind + 1) v
      have h2 := fsize_le_len (ind + 1) fs
      simp only [serVal, Json.jsize, Json.fsize, serStr, List.length_cons, List.length_append,
        indentChars, List.length_replicate, List.length_nil]
      omega

theorem lsize_le_len : ∀ (ind : Nat) (xs : List Json), Json.lsize xs ≤ (serTail ind xs).length
  | _, [] => by simp [serTail, Json.lsize]
  | ind, x :: xs => by
      have h1 := jsize_le_len ind x
      have h2 := lsize_le_len ind xs
      simp only [serTail, Json.lsize, List.length_cons, List.length_append,
        indentChars, List.length_replicate]
      omega

theorem fsize_le_len : ∀ (ind : Nat) (fs : List (String × Json)),
    Json.fsize fs ≤ (serFTail ind fs).length
  | _, [] => by simp [serFTail, Json.fsize]
  | ind, (k, v) :: fs => by
      have h1 := jsize_le_len ind v
      have h2 := fsize_le_len ind fs
      simp only [serFTail, Json.fsize, serStr, List.length_cons, List.length_append,
        indentChars, List.length_replicate]
      omega
end

/-- Parsing a serialized value back yields the value itself. -/
theorem jsonParse_formatAsJson (j : Json) : jsonParse (formatAsJson j) = some j := by
  have hP := (parse_ser ((serVal 0 j).length + 1)).1
  have hle : Json.jsize j ≤ (serVal 0 j).length + 1 :=
    le_trans (jsize_le_len 0 j) (by omega)
  have h := hP j 0 [] hle rfl
  rw [List.append_nil] at h
  show (match parseVal ((serVal 0 j).length + 1) (serVal 0 j) with
        | some (j, rest) => if skipWs rest = [] then some j else none
        | none => none) = some j
  rw [h]
  simp [skipWs]

/-! ## Argument bags and JavaScript truthiness (src/cli/wrapper.ts) -/

/-- A parsed JSON argument object, as handed to `wrapper.runCommand`. -/
abbrev ArgBag := List (String × Json)

/-- Member access on the argument bag; `none` models `undefined`. -/
def getArg (args : ArgBag) (name : String) : Option Json := List.lookup name args

/-- JavaScript truthiness of an argument value (`undefined`, `null`, `false`,
`0` and `""` are falsy; arrays and objects are truthy). -/
def truthy : Option Json → Bool
  | none => false
  | some .null => false
  | some (.bool b) => b
  | some (.num i) => !(i == 0)
  | some (.str s) => !(s == "")
  | some (.arr _) => true
  | some (.obj _) => true

/-- `args.format || this.currentFormat` (wrapper.ts line 130): the `format`
member if truthy, else the session's current format. -/
def effFormat (args : ArgBag) (currentFormat : String) : Json :=
  match getArg args "format" with
  | some v => if truthy (some v) then v else .str currentFormat
  | none => .str currentFormat

/-- The operation invocations `wrapper.runCommand` can make against the
API-wrapper layer, with the argument values it passes positionally. -/
inductive OpCall where
  | listSpaces (format : Json)
  | getSpace (spaceKey format : Json)
  | listPages (spaceKey title limit start : Option Json) (format : Json)
  | getPage (pageId format : Json)
  | createPage (spaceKey title body : Json) (parentId : Option Json) (format : Json)
  | updatePage (pageId title body version : Json)
  | addComment (pageId body format : Json)
  | deletePage (pageId : Json)
  | downloadAttachment (attachmentId : Json) (outputPath : Option Json)
  | getUser (accountId username : Option Json) (format : Json)
  | testConnection

/-- What one `runCommand` dispatch resolves to before any remote work. -/
inductive DispatchOutcome where
  | notLoaded
  | error (msg : String)
  | call (c : OpCall)
  | unknown (msg : String)

/-- Transliteration of the `switch` of `wrapper.runCommand`
(src/cli/wrapper.ts lines 120-218): per-command required-argument checks by
truthiness (`!args.x`), except `update-page`'s `version`, which is compared
against `undefined`; on success the operation is invoked with the raw
argument values. -/
def dispatchStep (configLoaded : Bool) (command : String) (args : ArgBag)
    (currentFormat : String) : DispatchOutcome :=
  if !configLoaded then .notLoaded
  else
    let format := effFormat args currentFormat
    if command = "list-spaces" then .call (.listSpaces format)
    else if command = "get-space" then
      if !truthy (getArg args "spaceKey") then
        .error "ERROR: \"spaceKey\" parameter is required"
      else .call (.getSpace ((getArg args "spaceKey").getD .null) format)
    else if command = "list-pages" then
      .call (.listPages (getArg args "spaceKey") (getArg args "title")
        (getArg args "limit") (getArg args "start") format)
    else if command = "get-page" then
      if !truthy (getArg args "pageId") then
        .error "ERROR: \"pageId\" parameter is required"
      else .call (.getPage ((getArg args "pageId").getD .null) format)
    else if command = "create-page" then
      if !truthy (getArg args "spaceKey") || !truthy (getArg args "title")
          || !truthy (getArg args "body") then
        .error "ERROR: \"spaceKey\", \"title\", and \"body\" parameters are required"
      else .call (.createPage ((getArg args "spaceKey").getD .null)
        ((getArg args "title").getD .null) ((getArg args "body").getD .null)
        (getArg args "parentId") format)
    else if command = "update-page" then
      if !truthy (getArg args "pageId") || !truthy (getArg args "title")
          || !truthy (getArg args "body") || (getArg args "version").isNone then
        .error "ERROR: \"pageId\", \"title\", \"body\", and \"version\" parameters are required"
      else .call (.updatePage ((getArg args "pageId").getD .null)
        ((getArg args "title").getD .null) ((getArg args "body").getD .null)
        ((getArg args "version").getD .null))
    else if command = "add-comment" then
      if !truthy (getArg args "pageId") || !truthy (getArg args "body") then
        .error "ERROR: \"pageId\" and \"body\" parameters are required"
      else .call (.addComment ((getArg args "pageId").getD .null)
        ((getArg args "body").getD .null) format)
    else if command = "delete-page" then
      if !truthy (getArg args "pageId") then
        .error "ERROR: \"pageId\" parameter is required"
      else .call (.deletePage ((getArg args "pageId").getD .null))
    else if command = "download-attachment" then
      if !truthy (getArg args "attachmentId") then
        .error "ERROR: \"attachmentId\" parameter is required"
      else .call (.downloadAttachment ((getArg args "attachmentId").getD .null)
        (getArg args "outputPath"))
    else if command = "get-user" then
      .call (.getUser (getArg args "accountId") (getArg args "username") format)
    else if command = "test-connection" then .call .testConnection
    else .unknown
      ("Unknown command: " ++ command ++ ". Type \"commands\" to see available commands.")

/-- The required, truthiness-checked argument names per command, read off the
validation conditions of `wrapper.runCommand` (the `version` argument of
`update-page` is tracked separately, being undefined-checked). -/
def requiredArgsOf (command : String) : List String :=
  if command = "get-space" then ["spaceKey"]
  else if command = "get-page" then ["pageId"]
  else if command = "create-page" then ["spaceKey", "title", "body"]
  else if command = "update-page" then ["pageId", "title", "body"]
  else if command = "add-comment" then ["pageId", "body"]
  else if command = "delete-page" then ["pageId"]
  else if command = "download-attachment" then ["attachmentId"]
  else []

/-- The required arguments of `command` that are absent (or falsy) in the
bag, in declaration order; for `update-page`, an undefined `version` counts. -/
def missingArgs (command : String) (args : ArgBag) : List String :=
  (requiredArgsOf command).filter (fun n => !truthy (getArg args n))
    ++ (if command = "update-page" && (getArg args "version").isNone then ["version"] else [])

/-- The message `msg` contains the name in double quotes. -/
def ContainsQuoted (msg name : String) : Prop :=
  ∃ pre post : String, msg = pre ++ "\"" ++ name ++ "\"" ++ post

/-- The message `msg` contains `sub` as a substring. -/
def ContainsStr (msg sub : String) : Prop :=
  ∃ pre post : String, msg = pre ++ sub ++ post

/-! ## The remote-operation layer (modelled `ConfluenceUtil`) -/

/-- One call against the remote API collaborator: the client method and the
JavaScript options object it receives. -/
structure RemoteCall where
  method : String
  params : ArgBag

/-- The remote collaborator's behaviour: each call either returns a payload
or fails with a human-readable error message (a thrown exception). -/
abbrev RemoteBehavior := RemoteCall → Except String Json

/-- JavaScript member access on a payload; absent members read as `null`
(standing in for `undefined`, which no claim distinguishes). -/
def jget (j : Json) (k : String) : Json :=
  match j with
  | .obj fs => (List.lookup k fs).getD .null
  | _ => .null

/-- JavaScript template-literal rendering of an interpolated value.  On the
typed paths of the program only strings and numbers reach a template; the
remaining cases follow JavaScript string conversion loosely and are not
relied on by any claim. -/
def jdisplay : Json → String
  | .str s => s
  | .num i => if i < 0 then "-" ++ (⟨natDigits i.natAbs⟩ : String) else ⟨natDigits i.natAbs⟩
  | .bool true => "true"
  | .bool false => "false"
  | .null => "null"
  | .arr _ => ""
  | .obj _ => "[object Object]"

/-- Modelled from the spec: the CQL query `ConfluenceUtil.listPages` builds —
`type=page`, scoped by a space clause when `spaceKey` is truthy and a title
clause when `title` is truthy (unit tests pin the exact strings). -/
def listPagesCql (spaceKey title : Option Json) : String :=
  "type=page"
    ++ (if truthy spaceKey then " AND space=\"" ++ jdisplay (spaceKey.getD .null) ++ "\"" else "")
    ++ (if truthy title then " AND title~\"" ++ jdisplay (title.getD .null) ++ "\"" else "")

/-- The argument record `ConfluenceUtil.listPages` receives from the
API-wrapper layer, after defaults are applied. -/
structure UtilListPagesArgs where
  spaceKey : Option Json
  title : Option Json
  limit : Json
  start : Json
  format : Json

/-- Present code: `listPages` in `src/utils/confluence-client.ts` (lines
53-62).  JavaScript default parameters: `limit = 25` and `start = 0` apply
exactly when the corresponding argument is `undefined`; an explicit `0` is
kept. -/
def clientListPages (spaceKey title limit start : Option Json) (format : Json) :
    UtilListPagesArgs :=
  ⟨spaceKey, title, limit.getD (.num 25), start.getD (.num 0), format⟩

/-- Modelled from the spec: the remote search call `ConfluenceUtil.listPages`
makes.  Its options object carries the CQL string and the limit — and nothing
else: the repository's unit tests (both variants) pin the call to exactly
`\x7b cql, limit \x7d`, so `start` is not forwarded. -/
def utilListPagesCall (a : UtilListPagesArgs) : RemoteCall :=
  ⟨"content.searchContentByCQL",
    [("cql", .str (listPagesCql a.spaceKey a.title)), ("limit", a.limit)]⟩

/-- The storage-format body object sent on create and update calls. -/
def storageBody (body : Json) : Json :=
  .obj [("storage", .obj [("value", body), ("representation", .str "storage")])]

/-- JavaScript `version + 1`.  The TypeScript signature types `version` as
`number`; non-numeric shapes are outside that contract (no claim reaches
them) and are passed through unchanged. -/
def incVersion : Json → Json
  | .num v => .num (v + 1)
  | v => v

/-- First element of a results array (``results[0]``). -/
def jfirst : Json → Json
  | .arr (x :: _) => x
  | _ => .null

/-- Modelled from the spec: the operation bodies of `ConfluenceUtil`
(`src/utils/confluence-utils.ts` is absent from the snapshot; shapes are
cross-checked against its unit tests).  Each body issues its remote calls in
order; the list collects the calls attempted, stopping at the first failure,
and the `Except` is the body's outcome — `.error` models a thrown exception
carrying the error message, `.ok (data, custom)` a success with its payload
and, for some operations, a custom pre-rendered result string. -/
def runBody (remote : RemoteBehavior) : OpCall → List RemoteCall × Except String (Json × Option String)
  | .listSpaces _ =>
      let c : RemoteCall := ⟨"space.getSpaces", []⟩
      ([c], (remote c).map (fun p => (jget p "results", none)))
  | .getSpace k _ =>
      let c : RemoteCall := ⟨"space.getSpace", [("spaceKey", k)]⟩
      ([c], (remote c).map (fun p => (p, none)))
  | .listPages sk t lim st fmt =>
      let c := utilListPagesCall (clientListPages sk t lim st fmt)
      ([c], (remote c).map (fun p => (jget p "results", none)))
  | .getPage id _ =>
      let c : RemoteCall := ⟨"content.getContentById",
        [("id", id), ("expand", .arr [.str "body.storage", .str "version", .str "space"])]⟩
      ([c], (remote c).map (fun p => (p, none)))
  | .createPage sk title body parentId _ =>
      let base : ArgBag := [("type", .str "page"), ("title", title),
        ("space", .obj [("key", sk)]), ("body", storageBody body)]
      let c : RemoteCall := ⟨"content.createContent",
        if truthy parentId then
          base ++ [("ancestors", .arr [.obj [("id", parentId.getD .null)]])]
        else base⟩
      ([c], (remote c).map (fun p => (p, none)))
  | .updatePage pageId title body version =>
      let c : RemoteCall := ⟨"content.updateContent",
        [("id", pageId), ("type", .str "page"), ("body", storageBody body),
         ("title", title), ("version", .obj [("number", incVersion version)])]⟩
      ([c], (remote c).map (fun p =>
        (p, some ("Page " ++ jdisplay pageId ++ " updated successfully!"))))
  | .addComment pageId body _ =>
      let c1 : RemoteCall := ⟨"content.getContentById",
        [("id", pageId), ("expand", .arr [.str "space"])]⟩
      match remote c1 with
      | .error m => ([c1], .error m)
      | .ok page =>
          let c2 : RemoteCall := ⟨"content.createContent",
            [("type", .str "comment"), ("container", .obj [("id", pageId), ("type", .str "page")]),
             ("title", .str ""), ("space", .obj [("key", jget (jget page "space") "key")]),
             ("body", storageBody body)]⟩
          ([c1, c2], (remote c2).map (fun p => (p, none)))
  | .deletePage pageId =>
      let c : RemoteCall := ⟨"content.deleteContent", [("id", pageId)]⟩
      ([c], (remote c).map (fun p =>
        (p, some ("Page " ++ jdisplay pageId ++ " deleted successfully!"))))
  | .downloadAttachment attachmentId _ =>
      let c1 : RemoteCall := ⟨"content.getContentById",
        [("id", attachmentId),
         ("expand", .arr [.str "container", .str "metadata.mediaType", .str "version"])]⟩
      match remote c1 with
      | .error m => ([c1], .error m)
      | .ok att =>
          let parentId := jget (jget att "container") "id"
          if truthy (some parentId) then
            let c2 : RemoteCall := ⟨"contentAttachments.downloadAttachment",
              [("id", parentId), ("attachmentId", attachmentId)]⟩
            ([c1, c2], (remote c2).map (fun p => (p, none)))
          else ([c1], .error "Parent content ID not found in attachment metadata")
  | .getUser accountId username _ =>
      if truthy accountId then
        let c : RemoteCall := ⟨"users.getUser", [("accountId", accountId.getD .null)]⟩
        ([c], (remote c).map (fun p => (p, none)))
      else if truthy username then
        let c : RemoteCall := ⟨"search.searchUser",
          [("cql", .str ("user.fullname~\"" ++ jdisplay (username.getD .null) ++ "\"")),
           ("limit", .num 1)]⟩
        match remote c with
        | .error m => ([c], .error m)
        | .ok p =>
            match jget p "results" with
            | .arr (u :: _) => ([c], .ok (u, none))
            | _ => ([c],
                .error ("User \"" ++ jdisplay (username.getD .null) ++ "\" not found"))
      else
        let c : RemoteCall := ⟨"users.getCurrentUser", []⟩
        ([c], (remote c).map (fun p => (p, none)))
  | .testConnection =>
      let c : RemoteCall := ⟨"users.getCurrentUser", []⟩
      ([c], (remote c).map (fun p =>
        (.obj [("currentUser", p)],
         some ("Connection successful!\nUser: " ++ jdisplay (jget p "displayName")
           ++ "\nEmail: " ++ jdisplay (jget p "email")))))

/-- The result envelope of every operation. -/
structure ApiResult where
  success : Bool
  data : Option Json
  result : Option String
  error : Option String

/-- The format carried by an operation call, as the wrapper passed it
(operations without a format argument render their custom result string). -/
def opFormat : OpCall → Json
  | .listSpaces f => f
  | .getSpace _ f => f
  | .listPages _ _ _ _ f => f
  | .getPage _ f => f
  | .createPage _ _ _ _ f => f
  | .addComment _ _ f => f
  | .getUser _ _ f => f
  | _ => .str "json"

/-- `formatResult` with the raw format value the wrapper passes: anything
other than the string `toon` renders as JSON. -/
def formatResultJ (enc : Json → String) (format : Json) (data : Json) : String :=
  match format with
  | .str s => formatResult enc s data
  | _ => formatAsJson data

/-- Modelled from the spec: every operation body runs inside try/catch; any
error raised by the body becomes a failure envelope whose `error` string is
the underlying message prefixed with the "ERROR: " marker, and nothing is
re-thrown.  A success populates `data` and the rendered `result`. -/
def runOp (enc : Json → String) (remote : RemoteBehavior) (c : OpCall) : ApiResult :=
  match (runBody remote c).2 with
  | .error m => ⟨false, none, none, some ("ERROR: " ++ m)⟩
  | .ok (data, custom) =>
      ⟨true, some data, some (custom.getD (formatResultJ enc (opFormat c) data)), none⟩

/-- What the wrapper prints for one command. -/
inductive Displayed where
  | stdout (s : String)
  | stderr (s : String)

/-- The full dispatch pipeline of `wrapper.runCommand`: validation, operation
body, envelope, display.  Returns the remote calls attempted and the printed
outcome. -/
def runCommandTrace (enc : Json → String) (remote : RemoteBehavior) (configLoaded : Bool)
    (command : String) (args : ArgBag) (currentFormat : String) :
    List RemoteCall × Displayed :=
  match dispatchStep configLoaded command args currentFormat with
  | .notLoaded => ([], .stdout "Configuration not loaded!")
  | .error msg => ([], .stderr msg)
  | .unknown msg => ([], .stderr msg)
  | .call c =>
      let env := runOp enc remote c
      ((runBody remote c).1,
       if env.success then .stdout ("\n" ++ env.result.getD "")
       else .stderr ("\n" ++ env.error.getD ""))

/-! ## The client pool (modelled `ConfluenceUtil.getClient` / `clearClients`,
with the present module-level teardown of `src/utils/confluence-client.ts`) -/

/-- Connection credentials of one named profile. -/
structure ProfileCred where
  host : String
  email : String
  apiToken : String

/-- The validated multi-profile configuration. -/
structure Config where
  profiles : List (String × ProfileCred)
  defaultProfile : String
  defaultFormat : String

/-- The per-profile client pool.  Handles are identified by the construction
counter `nextId`, so two constructions never yield the same handle identity. -/
structure ClientPool where
  pool : List (String × Nat)
  nextId : Nat

/-- Modelled from the spec: `ConfluenceUtil.getClient(profileName)` — return
the pooled handle unchanged when one exists; otherwise resolve the profile's
options (failing with a `ProfileNotFoundError` naming the profile when it is
absent from the configuration), construct a fresh handle, store it under the
profile name and return it. -/
def getClient (cfg : Config) (st : ClientPool) (p : String) :
    Except String (Nat × ClientPool) :=
  match List.lookup p st.pool with
  | some h => .ok (h, st)
  | none =>
      match List.lookup p cfg.profiles with
      | none => .error ("Profile \"" ++ p ++ "\" not found in configuration")
      | some _ => .ok (st.nextId, ⟨(p, st.nextId) :: st.pool, st.nextId + 1⟩)

/-- Modelled from the spec: `ConfluenceUtil.clearClients()` — release every
handle and empty the pool. -/
def clearClients (st : ClientPool) : ClientPool := ⟨[], st.nextId⟩

/-- Every pooled handle was issued by the construction counter. -/
def PoolWF (st : ClientPool) : Prop := ∀ q h, (q, h) ∈ st.pool → h < st.nextId

/-- Present code: the module-level `clearClients` of
`src/utils/confluence-client.ts` (lines 161-166) — if the singleton utility
exists, clear its pool and drop the singleton; otherwise do nothing.  Either
way the module holds no utility afterwards. -/
def clearClientsModule : Option ClientPool → Option ClientPool
  | none => none
  | some _ => none

/-! ## The headless runner (modelled `runCommand` of `src/commands/runner.ts`) -/

/-- Observable outcome of one headless invocation. -/
structure HeadlessOutcome where
  stdoutMsg : Option String
  stderrMsg : Option String
  exitCode : Nat
  cleared : Bool

/-- Modelled from the spec: the headless front-end's argument handling
(`src/commands/runner.ts` is absent from the snapshot; behaviour taken from
§4.4 of the specification and the runner's unit tests).  The JSON argument
string, when present and non-empty, must parse; a parse failure surfaces as a
dispatch-level error message containing "is not valid JSON", pool teardown
still runs, and the process exits with status 1.  A parse success yields the
argument bag (a non-object value leaves every named argument undefined). -/
def parseHeadlessArgs (argsJson : Option String) : Except String ArgBag :=
  match argsJson with
  | none => .ok []
  | some s =>
      if s = "" then .ok []
      else
        match jsonParse s with
        | some (.obj fs) => .ok fs
        | some _ => .ok []
        | none => .error ("\"" ++ s ++ "\" is not valid JSON")

/-- Modelled from the spec: one headless invocation — parse the argument
string, dispatch, print the envelope, always tear the pool down, and exit 0
exactly on success. -/
def runHeadless (enc : Json → String) (remote : RemoteBehavior) (cfg : Config)
    (command : String) (argsJson : Option String) : HeadlessOutcome :=
  match parseHeadlessArgs argsJson with
  | .error m =>
      ⟨none, some ("Error executing command: " ++ m), 1, true⟩
  | .ok args =>
      match runCommandTrace enc remote true command args cfg.defaultFormat with
      | (_, .stdout s) => ⟨some s, none, 0, true⟩
      | (_, .stderr s) => ⟨none, some s, 1, true⟩

/-! ## The interactive session (`wrapper.handleCommand`, src/cli/wrapper.ts) -/

/-- One character of JavaScript's `String.prototype.trim` whitespace (the
forms the REPL can receive). -/
def jsTrim (s : String) : String :=
  ⟨((s.data.dropWhile isWs).reverse.dropWhile isWs).reverse⟩

/-- `trimmed.startsWith(p)`. -/
def strStartsWith (s p : String) : Bool := List.isPrefixOf p.data s.data

/-- `trimmed.substring(n)` for ASCII command words. -/
def strDrop (s : String) (n : Nat) : String := ⟨s.data.drop n⟩

/-- The wrapper's per-session state that `handleCommand` can mutate: the
current output format (src/cli/wrapper.ts line 28). -/
structure Session where
  currentFormat : String

/-- What one REPL line resolves to. -/
inductive ReplEffect where
  | prompt
  | exit
  | help
  | listCommands
  | clearScreen
  | formatSet (f : String)
  | formatError (msg : String)
  | commandHelp (c : String)
  | runCmd (command arg : String)

/-- Transliteration of `wrapper.handleCommand` (src/cli/wrapper.ts lines
57-113): trim the input; handle the special commands; `format <type>` sets
the session format exactly for the tokens `json` and `toon` and reports an
error otherwise; anything else is dispatched as a command (`runCommand` does
not touch the session format). -/
def handleCommand (st : Session) (input : String) : Session × ReplEffect :=
  let trimmed := jsTrim input
  if trimmed = "" then (st, .prompt)
  else if trimmed = "exit" ∨ trimmed = "quit" ∨ trimmed = "q" then (st, .exit)
  else if trimmed = "help" ∨ trimmed = "?" then (st, .help)
  else if trimmed = "commands" then (st, .listCommands)
  else if trimmed = "clear" then (st, .clearScreen)
  else if strStartsWith trimmed "format " then
    let newFormat := jsTrim (strDrop trimmed 7)
    if newFormat = "json" ∨ newFormat = "toon" then
      ({ currentFormat := newFormat }, .formatSet newFormat)
    else (st, .formatError "ERROR: Invalid format. Choose: json or toon")
  else
    let firstSpace := trimmed.data.findIdx (fun c => c = ' ')
    let command := ⟨trimmed.data.take firstSpace⟩
    let arg := jsTrim (strDrop trimmed (firstSpace + 1))
    if arg = "-h" then (st, .commandHelp command)
    else (st, .runCmd command arg)

/-! ## Helper lemmas about lookups -/

theorem lookup_mem {β : Type} {l : List (String × β)} {p : String} {v : β}
    (h : List.lookup p l = some v) : (p, v) ∈ l := by
  induction l with
  | nil => simp [List.lookup] at h
  | cons a l ih =>
      obtain ⟨k, w⟩ := a
      rw [List.lookup] at h
      by_cases hk : (p == k) = true
      · have hpk : p = k := by simpa using hk
        rw [hk] at h
        simp at h
        subst hpk
        subst h
        exact List.mem_cons_self _ _
      · rw [Bool.not_eq_true] at hk
        rw [hk] at h
        simp at h
        exact List.mem_cons_of_mem _ (ih h)

/-! ## C3: the pool memoizes per profile -/

/-- C3: for a profile present in the configuration, `getClient` succeeds, and
a second call on the resulting pool returns the identical handle with the
pool unchanged — the handle constructor runs at most once per profile until
the pool is cleared. -/
theorem C3_getClient_memoized (cfg : Config) (st : ClientPool) (p : String)
    (hp : (List.lookup p cfg.profiles).isSome = true) :
    ∃ h st₁, getClient cfg st p = .ok (h, st₁) ∧ getClient cfg st₁ p = .ok (h, st₁) := by
  cases hpool : List.lookup p st.pool with
  | some h => exact ⟨h, st, by simp [getClient, hpool], by simp [getClient, hpool]⟩
  | none =>
      cases hcfg : List.lookup p cfg.profiles with
      | none => rw [hcfg] at hp; simp at hp
      | some cred =>
          refine ⟨st.nextId, ⟨(p, st.nextId) :: st.pool, st.nextId + 1⟩,
            by simp [getClient, hpool, hcfg], ?_⟩
          simp [getClient, List.lookup]

/-- C3 witness: on the test configuration's `cloud` profile and an empty
pool, the first call constructs handle 0 and the second call returns the same
handle with the pool unchanged. -/
theorem C3_getClient_memoized_witness :
    (List.lookup "cloud"
      [("cloud", ProfileCred.mk "https://test.atlassian.net" "test@test.com" "token")]).isSome
        = true ∧
    ∃ h st₁,
      getClient
          ⟨[("cloud", ProfileCred.mk "https://test.atlassian.net" "test@test.com" "token")],
            "cloud", "json"⟩ ⟨[], 0⟩ "cloud" = .ok (h, st₁) ∧
      getClient
          ⟨[("cloud", ProfileCred.mk "https://test.atlassian.net" "test@test.com" "token")],
            "cloud", "json"⟩ st₁ "cloud" = .ok (h, st₁) :=
  ⟨rfl, C3_getClient_memoized _ ⟨[], 0⟩ "cloud" rfl⟩

/-! ## C4: clearing the pool -/

/-- C4: `clearClients` empties the pool; it is a no-op on an empty pool and
idempotent; the module-level teardown always leaves no singleton; and after a
clear, `getClient` constructs a handle distinct from the pre-clear one. -/
theorem C4_clearClients (cfg : Config) (st : ClientPool) (p : String) :
    (clearClients st).pool = [] ∧
    (∀ st' : ClientPool, st'.pool = [] → clearClients st' = st') ∧
    clearClients (clearClients st) = clearClients st ∧
    (∀ s, clearClientsModule s = none) ∧
    (PoolWF st → (List.lookup p cfg.profiles).isSome = true →
      ∀ h st₁, getClient cfg st p = .ok (h, st₁) →
        ∃ h₂ st₂, getClient cfg (clearClients st₁) p = .ok (h₂, st₂) ∧ h₂ ≠ h) := by
  refine ⟨rfl, ?_, rfl, ?_, ?_⟩
  · intro st' hp
    cases st' with
    | mk pool n => simp at hp; simp [clearClients, hp]
  · intro s; cases s <;> rfl
  · intro hwf hp h st₁ hget
    have hival : h < st₁.nextId := by
      cases hpool : List.lookup p st.pool with
      | some h0 =>
          rw [getClient, hpool] at hget
          simp at hget
          obtain ⟨hh, hst⟩ := hget
          subst hh
          subst hst
          exact hwf p _ (lookup_mem hpool)
      | none =>
          cases hcfg : List.lookup p cfg.profiles with
          | none => rw [hcfg] at hp; simp at hp
          | some cred =>
              rw [getClient, hpool, hcfg] at hget
              simp at hget
              obtain ⟨hh, hst⟩ := hget
              subst hh
              subst hst
              exact Nat.lt_succ_self _
    cases hcfg : List.lookup p cfg.profiles with
    | none => rw [hcfg] at hp; simp at hp
    | some cred =>
        refine ⟨st₁.nextId, ⟨(p, st₁.nextId) :: [], st₁.nextId + 1⟩, ?_, by omega⟩
        simp [getClient, clearClients, List.lookup, hcfg]

/-- C4 witness: on the test configuration, construct a handle, clear, and
observe that the next construction yields a different handle. -/
theorem C4_clearClients_witness :
    PoolWF ⟨[], 0⟩ ∧
    getClient
        ⟨[("cloud", ProfileCred.mk "https://test.atlassian.net" "test@test.com" "token")],
          "cloud", "json"⟩ ⟨[], 0⟩ "cloud" = .ok (0, ⟨[("cloud", 0)], 1⟩) ∧
    ∃ h₂ st₂,
      getClient
          ⟨[("cloud", ProfileCred.mk "https://test.atlassian.net" "test@test.com" "token")],
            "cloud", "json"⟩ (clearClients ⟨[("cloud", 0)], 1⟩) "cloud" = .ok (h₂, st₂) ∧
        h₂ ≠ 0 := by
  have hwf : PoolWF ⟨[], 0⟩ := by intro q h hmem; simp at hmem
  refine ⟨hwf, rfl, ?_⟩
  exact (C4_clearClients
    ⟨[("cloud", ProfileCred.mk "https://test.atlassian.net" "test@test.com" "token")],
      "cloud", "json"⟩ ⟨[], 0⟩ "cloud").2.2.2.2 hwf rfl 0 ⟨[("cloud", 0)], 1⟩ rfl

/-! ## C5: update-page increments the supplied version by one -/

/-- C5: a validated `update-page` dispatch with current version `v` makes
exactly one remote call, `content.updateContent`, whose version object
carries `v + 1`. -/
theorem C5_update_increments_version (enc : Json → String) (remote : RemoteBehavior)
    (args : ArgBag) (fmt : String) (v : Int)
    (h1 : truthy (getArg args "pageId") = true) (h2 : truthy (getArg args "title") = true)
    (h3 : truthy (getArg args "body") = true)
    (h4 : getArg args "version" = some (.num v)) :
    (runCommandTrace enc remote true "update-page" args fmt).1
      = [⟨"content.updateContent",
          [("id", (getArg args "pageId").getD .null), ("type", .str "page"),
           ("body", storageBody ((getArg args "body").getD .null)),
           ("title", (getArg args "title").getD .null),
           ("version", .obj [("number", .num (v + 1))])]⟩] := by
  have hdisp : dispatchStep true "update-page" args fmt
      = .call (.updatePage ((getArg args "pageId").getD .null)
          ((getArg args "title").getD .null) ((getArg args "body").getD .null) (.num v)) := by
    simp [dispatchStep, h1, h2, h3, h4]
  rw [runCommandTrace, hdisp]
  simp [runBody, incVersion]

/-- C5 witness: the specification's own example — version 5 reaches the
remote as 6. -/
theorem C5_update_increments_version_witness :
    truthy (getArg [("pageId", Json.str "1"), ("title", Json.str "t"),
      ("body", Json.str "b"), ("version", Json.num 5)] "pageId") = true ∧
    (runCommandTrace (fun _ => "") (fun _ => .ok .null) true "update-page"
        [("pageId", Json.str "1"), ("title", Json.str "t"),
         ("body", Json.str "b"), ("version", Json.num 5)] "json").1
      = [⟨"content.updateContent",
          [("id", Json.str "1"), ("type", .str "page"),
           ("body", storageBody (Json.str "b")), ("title", Json.str "t"),
           ("version", .obj [("number", .num 6)])]⟩] :=
  ⟨rfl, C5_update_increments_version (fun _ => "") (fun _ => .ok .null)
    [("pageId", Json.str "1"), ("title", Json.str "t"),
     ("body", Json.str "b"), ("version", Json.num 5)] "json" 5 rfl rfl rfl rfl⟩

/-! ## C6: list-pages defaults and what the remote search call receives -/

/-- C6 counterexample: for `dispatch('list-pages', ⦃⦄)` the remote
collaborator receives the unscoped query with `limit = 25`, but no `start`
member at all — refuting the claim that the remote receives `start = 0`. -/
theorem C6_counterexample :
    (runCommandTrace (fun _ => "") (fun _ => .ok .null) true "list-pages" [] "json").1
      = [⟨"content.searchContentByCQL",
          [("cql", .str "type=page"), ("limit", .num 25)]⟩] ∧
    ¬ ∃ call ∈ (runCommandTrace (fun _ => "") (fun _ => .ok .null) true
          "list-pages" [] "json").1,
        List.lookup "start" call.params = some (.num 0) := by
  refine ⟨rfl, ?_⟩
  rintro ⟨call, hc, hs⟩
  have htr : (runCommandTrace (fun _ => "") (fun _ => .ok .null) true
      "list-pages" [] "json").1
      = [⟨"content.searchContentByCQL",
          [("cql", Json.str "type=page"), ("limit", Json.num 25)]⟩] := rfl
  rw [htr] at hc
  simp at hc
  subst hc
  simp [List.lookup] at hs

/-- C6 amended: the API-wrapper layer applies the defaults `limit = 25`,
`start = 0` exactly on absence (an explicit `start = 0` is preserved, not
collapsed); an empty bag reaches the remote as the unscoped `type=page` query
with `limit = 25`; a present space key scopes the query; and the remote
options object carries no `start` member. -/
theorem C6_amended_defaults (sk t lim : Option Json) (f : Json) :
    (clientListPages sk t none none f).limit = .num 25 ∧
    (clientListPages sk t none none f).start = .num 0 ∧
    (clientListPages sk t lim (some (.num 0)) f).start = .num 0 ∧
    (runCommandTrace (fun _ => "") (fun _ => .ok .null) true "list-pages" [] "json").1
      = [⟨"content.searchContentByCQL",
          [("cql", .str "type=page"), ("limit", .num 25)]⟩] ∧
    (utilListPagesCall (clientListPages (some (.str "DOCS")) none none none
        (.str "json"))).params
      = [("cql", .str "type=page AND space=\"DOCS\""), ("limit", .num 25)] ∧
    List.lookup "start"
      [(("cql" : String), Json.str "type=page"), ("limit", Json.num 25)] = none :=
  ⟨rfl, rfl, rfl, rfl, rfl, rfl⟩

/-! ## C7: headless JSON parse failure -/

/-- C7: in headless mode an unparsable argument string surfaces as a
dispatch-level error (exit status 1, never an uncaught crash), the client
pool is still torn down, and the error text says the input is not valid
JSON. -/
theorem C7_headless_invalid_json (enc : Json → String) (remote : RemoteBehavior)
    (cfg : Config) (command s : String) (h1 : s ≠ "") (h2 : jsonParse s = none) :
    (runHeadless enc remote cfg command (some s)).exitCode = 1 ∧
    (runHeadless enc remote cfg command (some s)).cleared = true ∧
    ∃ msg, (runHeadless enc remote cfg command (some s)).stderrMsg = some msg ∧
      ContainsStr msg "is not valid JSON" := by
  have hparse : parseHeadlessArgs (some s)
      = .error ("\"" ++ s ++ "\" is not valid JSON") := by
    simp [parseHeadlessArgs, h1, h2]
  refine ⟨by simp [runHeadless, hparse], by simp [runHeadless, hparse],
    "Error executing command: " ++ ("\"" ++ s ++ "\" is not valid JSON"),
    by simp [runHeadless, hparse], ?_⟩
  refine ⟨"Error executing command: " ++ ("\"" ++ s ++ "\" "), "", ?_⟩
  rw [show ("\" is not valid JSON" : String) = "\" " ++ "is not valid JSON" from rfl,
    String.append_empty]
  simp only [String.append_assoc]

/-- C7 witness: the runner test's own input `invalid json`. -/
theorem C7_headless_invalid_json_witness :
    ("invalid json" : String) ≠ "" ∧ jsonParse "invalid json" = none ∧
    (runHeadless (fun _ => "") (fun _ => .ok .null) ⟨[], "cloud", "json"⟩
        "list-spaces" (some "invalid json")).exitCode = 1 ∧
    (runHeadless (fun _ => "") (fun _ => .ok .null) ⟨[], "cloud", "json"⟩
        "list-spaces" (some "invalid json")).cleared = true ∧
    ∃ msg, (runHeadless (fun _ => "") (fun _ => .ok .null) ⟨[], "cloud", "json"⟩
        "list-spaces" (some "invalid json")).stderrMsg = some msg ∧
      ContainsStr msg "is not valid JSON" := by
  have h1 : ("invalid json" : String) ≠ "" := by decide
  have h2 : jsonParse "invalid json" = none := rfl
  obtain ⟨a, b, c⟩ := C7_headless_invalid_json (fun _ => "") (fun _ => .ok .null)
    ⟨[], "cloud", "json"⟩ "list-spaces" "invalid json" h1 h2
  exact ⟨h1, h2, a, b, c⟩

/-! ## C9: truthiness validation vs the undefined-check on version -/

/-- C9: a required argument supplied as the empty string is treated as
missing (truthiness validation) and the dispatch fails; by contrast,
`update-page`'s `version` is compared against `undefined` only, so version
`0` is accepted and dispatched. -/
theorem C9_truthiness_vs_undefined :
    (∀ (command : String) (args : ArgBag) (fmt : String) (name : String),
        name ∈ requiredArgsOf command → getArg args name = some (.str "") →
        ∃ msg, dispatchStep true command args fmt = .error msg) ∧
    (∀ (args : ArgBag) (fmt : String),
        truthy (getArg args "pageId") = true → truthy (getArg args "title") = true →
        truthy (getArg args "body") = true → getArg args "version" = some (.num 0) →
        dispatchStep true "update-page" args fmt
          = .call (.updatePage ((getArg args "pageId").getD .null)
              ((getArg args "title").getD .null) ((getArg args "body").getD .null)
              (.num 0))) := by
  constructor
  · intro command args fmt name hreq hempty
    have hfalse : truthy (getArg args name) = false := by rw [hempty]; rfl
    by_cases c1 : command = "get-space"
    · subst c1
      simp [requiredArgsOf] at hreq
      subst hreq
      exact ⟨"ERROR: \"spaceKey\" parameter is required", by simp [dispatchStep, hfalse]⟩
    · by_cases c2 : command = "get-page"
      · subst c2
        simp [requiredArgsOf] at hreq
        subst hreq
        exact ⟨"ERROR: \"pageId\" parameter is required", by simp [dispatchStep, hfalse]⟩
      · by_cases c3 : command = "create-page"
        · subst c3
          simp [requiredArgsOf] at hreq
          rcases hreq with rfl | rfl | rfl <;>
            exact ⟨"ERROR: \"spaceKey\", \"title\", and \"body\" parameters are required",
              by simp [dispatchStep, hfalse]⟩
        · by_cases c4 : command = "update-page"
          · subst c4
            simp [requiredArgsOf] at hreq
            rcases hreq with rfl | rfl | rfl <;>
              exact ⟨"ERROR: \"pageId\", \"title\", \"body\", and \"version\" parameters are required",
                by simp [dispatchStep, hfalse]⟩
          · by_cases c5 : command = "add-comment"
            · subst c5
              simp [requiredArgsOf] at hreq
              rcases hreq with rfl | rfl <;>
                exact ⟨"ERROR: \"pageId\" and \"body\" parameters are required",
                  by simp [dispatchStep, hfalse]⟩
            · by_cases c6 : command = "delete-page"
              · subst c6
                simp [requiredArgsOf] at hreq
                subst hreq
                exact ⟨"ERROR: \"pageId\" parameter is required",
                  by simp [dispatchStep, hfalse]⟩
              · by_cases c7 : command = "download-attachment"
                · subst c7
                  simp [requiredArgsOf] at hreq
                  subst hreq
                  exact ⟨"ERROR: \"attachmentId\" parameter is required",
                    by simp [dispatchStep, hfalse]⟩
                · rw [requiredArgsOf, if_neg c1, if_neg c2, if_neg c3, if_neg c4,
                    if_neg c5, if_neg c6, if_neg c7] at hreq
                  simp at hreq
  · intro args fmt h1 h2 h3 h4
    simp [dispatchStep, h1, h2, h3, h4]

/-- C9 witness: `get-space` with an empty-string `spaceKey` fails validation,
while `update-page` with version `0` is dispatched with version `0`. -/
theorem C9_truthiness_vs_undefined_witness :
    ("spaceKey" ∈ requiredArgsOf "get-space" ∧
      getArg [("spaceKey", Json.str "")] "spaceKey" = some (.str "") ∧
      ∃ msg, dispatchStep true "get-space" [("spaceKey", Json.str "")] "json" = .error msg) ∧
    (truthy (getArg [("pageId", Json.str "1"), ("title", Json.str "t"),
        ("body", Json.str "b"), ("version", Json.num 0)] "pageId") = true ∧
      dispatchStep true "update-page"
          [("pageId", Json.str "1"), ("title", Json.str "t"),
           ("body", Json.str "b"), ("version", Json.num 0)] "json"
        = .call (.updatePage (Json.str "1") (Json.str "t") (Json.str "b") (.num 0))) := by
  constructor
  · refine ⟨by decide, rfl, ?_⟩
    exact C9_truthiness_vs_undefined.1 "get-space" [("spaceKey", Json.str "")] "json"
      "spaceKey" (by decide) rfl
  · refine ⟨rfl, ?_⟩
    exact C9_truthiness_vs_undefined.2
      [("pageId", Json.str "1"), ("title", Json.str "t"),
       ("body", Json.str "b"), ("version", Json.num 0)] "json" rfl rfl rfl rfl

/-! ## C10: only `format json|toon` mutates the session format -/

/-- C10: across every possible REPL input line, the session's current format
after `handleCommand` equals the supplied token exactly when the line is a
`format` command with token `json` or `toon`, and is unchanged otherwise; and
the invalid-format error is reported exactly when a `format` command carries
any other token — so no other REPL command mutates the format. -/
theorem C10_format_mutation (st : Session) (input : String) :
    ((handleCommand st input).1.currentFormat
      = if strStartsWith (jsTrim input) "format "
            ∧ (jsTrim (strDrop (jsTrim input) 7) = "json"
              ∨ jsTrim (strDrop (jsTrim input) 7) = "toon")
        then jsTrim (strDrop (jsTrim input) 7) else st.currentFormat) ∧
    ((handleCommand st input).2 = .formatError "ERROR: Invalid format. Choose: json or toon"
      ↔ (strStartsWith (jsTrim input) "format " = true
          ∧ jsTrim (strDrop (jsTrim input) 7) ≠ "json"
          ∧ jsTrim (strDrop (jsTrim input) 7) ≠ "toon")) := by
  simp only [handleCommand]
  by_cases h1 : jsTrim input = ""
  · have e1 : strStartsWith "" "format " = false := rfl
    simp [h1, e1]
  · rw [if_neg h1]
    by_cases h2 : jsTrim input = "exit" ∨ jsTrim input = "quit" ∨ jsTrim input = "q"
    · rw [if_pos h2]
      rcases h2 with h2 | h2 | h2 <;>
        simp [h2, show strStartsWith "exit" "format " = false from rfl,
          show strStartsWith "quit" "format " = false from rfl,
          show strStartsWith "q" "format " = false from rfl]
    · rw [if_neg h2]
      by_cases h3 : jsTrim input = "help" ∨ jsTrim input = "?"
      · rw [if_pos h3]
        rcases h3 with h3 | h3 <;>
          simp [h3, show strStartsWith "help" "format " = false from rfl,
            show strStartsWith "?" "format " = false from rfl]
      · rw [if_neg h3]
        by_cases h4 : jsTrim input = "commands"
        · rw [if_pos h4]
          simp [h4, show strStartsWith "commands" "format " = false from rfl]
        · rw [if_neg h4]
          by_cases h5 : jsTrim input = "clear"
          · rw [if_pos h5]
            simp [h5, show strStartsWith "clear" "format " = false from rfl]
          · rw [if_neg h5]
            by_cases h6 : strStartsWith (jsTrim input) "format " = true
            · rw [if_pos h6]
              by_cases h7 : jsTrim (strDrop (jsTrim input) 7) = "json"
                  ∨ jsTrim (strDrop (jsTrim input) 7) = "toon"
              · rw [if_pos h7]
                have hcond : strStartsWith (jsTrim input) "format "
                    ∧ (jsTrim (strDrop (jsTrim input) 7) = "json"
                      ∨ jsTrim (strDrop (jsTrim input) 7) = "toon") := ⟨h6, h7⟩
                rcases h7 with h7 | h7 <;> simp [hcond, h7]
              · rw [if_neg h7]
                push_neg at h7
                simp [h6, h7.1, h7.2]
            · rw [if_neg h6]
              have h6' : strStartsWith (jsTrim input) "format " = false := by
                simpa using h6
              have hrhs : ¬ (strStartsWith (jsTrim input) "format "
                  ∧ (jsTrim (strDrop (jsTrim input) 7) = "json"
                    ∨ jsTrim (strDrop (jsTrim input) 7) = "toon")) := fun hc => h6 hc.1
              constructor
              · rw [if_neg hrhs]
                split_ifs <;> rfl
              · split_ifs <;> simp [h6']

/-! ## C1: remote failures become ERROR-prefixed failure envelopes -/

/-- C1: whenever an operation body raises an error, the layer catches it and
returns a failure envelope whose error string is the underlying message with
the "ERROR: " prefix — and the wrapper renders that envelope on the error
stream; no remote exception escapes the dispatch. -/
theorem C1_remote_error_envelope (enc : Json → String) (remote : RemoteBehavior) (c : OpCall)
    (m : String) (h : (runBody remote c).2 = .error m) :
    runOp enc remote c = ⟨false, none, none, some ("ERROR: " ++ m)⟩ ∧
    (∀ (cl : Bool) (command : String) (args : ArgBag) (fmt : String),
      dispatchStep cl command args fmt = .call c →
      (runCommandTrace enc remote cl command args fmt).2
        = .stderr ("\n" ++ ("ERROR: " ++ m))) := by
  have henv : runOp enc remote c = ⟨false, none, none, some ("ERROR: " ++ m)⟩ := by
    rw [runOp, h]
  refine ⟨henv, ?_⟩
  intro cl command args fmt hdisp
  rw [runCommandTrace, hdisp]
  simp [henv]

/-- C1 witness: a `list-spaces` dispatch against a remote that fails with
`API Error` yields the envelope error `ERROR: API Error` (the unit test's own
scenario). -/
theorem C1_remote_error_envelope_witness :
    (runBody (fun _ => .error "API Error") (.listSpaces (.str "json"))).2
      = .error "API Error" ∧
    runOp (fun _ => "") (fun _ => .error "API Error") (.listSpaces (.str "json"))
      = ⟨false, none, none, some "ERROR: API Error"⟩ ∧
    dispatchStep true "list-spaces" [] "json" = .call (.listSpaces (.str "json")) ∧
    (runCommandTrace (fun _ => "") (fun _ => .error "API Error")
        true "list-spaces" [] "json").2 = .stderr "\nERROR: API Error" := by
  have h : (runBody (fun _ => Except.error "API Error")
      (OpCall.listSpaces (.str "json"))).2 = .error "API Error" := rfl
  obtain ⟨a, b⟩ := C1_remote_error_envelope (fun _ => "") (fun _ => .error "API Error")
    (.listSpaces (.str "json")) "API Error" h
  exact ⟨h, a, rfl, b true "list-spaces" [] "json" rfl⟩

/-! ## C2: missing required arguments are reported exhaustively, no remote call -/

/-- C2: whenever at least one required argument is missing from the bag, the
dispatch fails with a single validation message that names (in double quotes)
every missing required argument of that command, and the remote collaborator
receives zero calls for that dispatch. -/
theorem C2_missing_args_reported (enc : Json → String) (remote : RemoteBehavior)
    (command : String) (args : ArgBag) (fmt : String)
    (h : missingArgs command args ≠ []) :
    ∃ msg, dispatchStep true command args fmt = .error msg ∧
      (∀ name ∈ missingArgs command args, ContainsQuoted msg name) ∧
      (runCommandTrace enc remote true command args fmt).1 = [] ∧
      (runCommandTrace enc remote true command args fmt).2 = .stderr msg := by
  by_cases c1 : command = "get-space"
  · subst c1
    have hmA : missingArgs "get-space" args
        = List.filter (fun n => !truthy (getArg args n)) ["spaceKey"] := by
      simp [missingArgs, requiredArgsOf]
    have hcond : truthy (getArg args "spaceKey") = false := by
      rw [hmA] at h
      cases ht : truthy (getArg args "spaceKey")
      · rfl
      · exact absurd (by simp [List.filter, ht]) h
    have hdisp : dispatchStep true "get-space" args fmt
        = .error "ERROR: \"spaceKey\" parameter is required" := by
      simp [dispatchStep, hcond]
    refine ⟨_, hdisp, ?_, by rw [runCommandTrace, hdisp], by rw [runCommandTrace, hdisp]⟩
    intro name hn
    rw [hmA] at hn
    have hmem := (List.mem_filter.mp hn).1
    simp at hmem
    subst hmem
    exact ⟨"ERROR: ", " parameter is required", rfl⟩
  · by_cases c2 : command = "get-page"
    · subst c2
      have hmA : missingArgs "get-page" args
          = List.filter (fun n => !truthy (getArg args n)) ["pageId"] := by
        simp [missingArgs, requiredArgsOf]
      have hcond : truthy (getArg args "pageId") = false := by
        rw [hmA] at h
        cases ht : truthy (getArg args "pageId")
        · rfl
        · exact absurd (by simp [List.filter, ht]) h
      have hdisp : dispatchStep true "get-page" args fmt
          = .error "ERROR: \"pageId\" parameter is required" := by
        simp [dispatchStep, hcond]
      refine ⟨_, hdisp, ?_, by rw [runCommandTrace, hdisp], by rw [runCommandTrace, hdisp]⟩
      intro name hn
      rw [hmA] at hn
      have hmem := (List.mem_filter.mp hn).1
      simp at hmem
      subst hmem
      exact ⟨"ERROR: ", " parameter is required", rfl⟩
    · by_cases c3 : command = "create-page"
      · subst c3
        have hmA : missingArgs "create-page" args
            = List.filter (fun n => !truthy (getArg args n))
                ["spaceKey", "title", "body"] := by
          simp [missingArgs, requiredArgsOf]
        have hcond : (!truthy (getArg args "spaceKey") || !truthy (getArg args "title")
            || !truthy (getArg args "body")) = true := by
          rw [hmA] at h
          obtain ⟨y, hy⟩ := List.exists_mem_of_ne_nil _ h
          obtain ⟨hy1, hy2⟩ := List.mem_filter.mp hy
          simp at hy1
          rcases hy1 with rfl | rfl | rfl <;> simp [hy2]
        have hdisp : dispatchStep true "create-page" args fmt
            = .error "ERROR: \"spaceKey\", \"title\", and \"body\" parameters are required" := by
          simp [dispatchStep, hcond]
        refine ⟨_, hdisp, ?_, by rw [runCommandTrace, hdisp], by rw [runCommandTrace, hdisp]⟩
        intro name hn
        rw [hmA] at hn
        have hmem := (List.mem_filter.mp hn).1
        simp at hmem
        rcases hmem with rfl | rfl | rfl
        · exact ⟨"ERROR: ", ", \"title\", and \"body\" parameters are required", rfl⟩
        · exact ⟨"ERROR: \"spaceKey\", ", ", and \"body\" parameters are required", rfl⟩
        · exact ⟨"ERROR: \"spaceKey\", \"title\", and ", " parameters are required", rfl⟩
      · by_cases c4 : command = "update-page"
        · subst c4
          have hmA : missingArgs "update-page" args
              = List.filter (fun n => !truthy (getArg args n)) ["pageId", "title", "body"]
                ++ (if (getArg args "version").isNone then ["version"] else []) := by
            cases hv : (getArg args "version").isNone <;>
              simp [missingArgs, requiredArgsOf, hv]
          have hcond : (!truthy (getArg args "pageId") || !truthy (getArg args "title")
              || !truthy (getArg args "body") || (getArg args "version").isNone) = true := by
            rw [hmA] at h
            by_cases hA : List.filter (fun n => !truthy (getArg args n))
                ["pageId", "title", "body"] = []
            · rw [hA, List.nil_append] at h
              by_cases hv : (getArg args "version").isNone
              · simp [hv]
              · rw [if_neg hv] at h
                exact absurd rfl h
            · obtain ⟨y, hy⟩ := List.exists_mem_of_ne_nil _ hA
              obtain ⟨hy1, hy2⟩ := List.mem_filter.mp hy
              simp at hy1
              rcases hy1 with rfl | rfl | rfl <;> simp [hy2]
          have hdisp : dispatchStep true "update-page" args fmt
              = .error
                "ERROR: \"pageId\", \"title\", \"body\", and \"version\" parameters are required" := by
            simp [dispatchStep, hcond]
          refine ⟨_, hdisp, ?_, by rw [runCommandTrace, hdisp], by rw [runCommandTrace, hdisp]⟩
          intro name hn
          rw [hmA] at hn
          rcases List.mem_append.mp hn with hn | hn
          · have hmem := (List.mem_filter.mp hn).1
            simp at hmem
            rcases hmem with rfl | rfl | rfl
            · exact ⟨"ERROR: ",
                ", \"title\", \"body\", and \"version\" parameters are required", rfl⟩
            · exact ⟨"ERROR: \"pageId\", ",
                ", \"body\", and \"version\" parameters are required", rfl⟩
            · exact ⟨"ERROR: \"pageId\", \"title\", ",
                ", and \"version\" parameters are required", rfl⟩
          · by_cases hv : (getArg args "version").isNone
            · rw [if_pos hv] at hn
              simp at hn
              subst hn
              exact ⟨"ERROR: \"pageId\", \"title\", \"body\", and ",
                " parameters are required", rfl⟩
            · rw [if_neg hv] at hn
              simp at hn
        · by_cases c5 : command = "add-comment"
          · subst c5
            have hmA : missingArgs "add-comment" args
                = List.filter (fun n => !truthy (getArg args n)) ["pageId", "body"] := by
              simp [missingArgs, requiredArgsOf]
            have hcond : (!truthy (getArg args "pageId")
                || !truthy (getArg args "body")) = true := by
              rw [hmA] at h
              obtain ⟨y, hy⟩ := List.exists_mem_of_ne_nil _ h
              obtain ⟨hy1, hy2⟩ := List.mem_filter.mp hy
              simp at hy1
              rcases hy1 with rfl | rfl <;> simp [hy2]
            have hdisp : dispatchStep true "add-comment" args fmt
                = .error "ERROR: \"pageId\" and \"body\" parameters are required" := by
              simp [dispatchStep, hcond]
            refine ⟨_, hdisp, ?_,
              by rw [runCommandTrace, hdisp], by rw [runCommandTrace, hdisp]⟩
            intro name hn
            rw [hmA] at hn
            have hmem := (List.mem_filter.mp hn).1
            simp at hmem
            rcases hmem with rfl | rfl
            · exact ⟨"ERROR: ", " and \"body\" parameters are required", rfl⟩
            · exact ⟨"ERROR: \"pageId\" and ", " parameters are required", rfl⟩
          · by_cases c6 : command = "delete-page"
            · subst c6
              have hmA : missingArgs "delete-page" args
                  = List.filter (fun n => !truthy (getArg args n)) ["pageId"] := by
                simp [missingArgs, requiredArgsOf]
              have hcond : truthy (getArg args "pageId") = false := by
                rw [hmA] at h
                cases ht : truthy (getArg args "pageId")
                · rfl
                · exact absurd (by simp [List.filter, ht]) h
              have hdisp : dispatchStep true "delete-page" args fmt
                  = .error "ERROR: \"pageId\" parameter is required" := by
                simp [dispatchStep, hcond]
              refine ⟨_, hdisp, ?_,
                by rw [runCommandTrace, hdisp], by rw [runCommandTrace, hdisp]⟩
              intro name hn
              rw [hmA] at hn
              have hmem := (List.mem_filter.mp hn).1
              simp at hmem
              subst hmem
              exact ⟨"ERROR: ", " parameter is required", rfl⟩
            · by_cases c7 : command = "download-attachment"
              · subst c7
                have hmA : missingArgs "download-attachment" args
                    = List.filter (fun n => !truthy (getArg args n)) ["attachmentId"] := by
                  simp [missingArgs, requiredArgsOf]
                have hcond : truthy (getArg args "attachmentId") = false := by
                  rw [hmA] at h
                  cases ht : truthy (getArg args "attachmentId")
                  · rfl
                  · exact absurd (by simp [List.filter, ht]) h
                have hdisp : dispatchStep true "download-attachment" args fmt
                    = .error "ERROR: \"attachmentId\" parameter is required" := by
                  simp [dispatchStep, hcond]
                refine ⟨_, hdisp, ?_,
                  by rw [runCommandTrace, hdisp], by rw [runCommandTrace, hdisp]⟩
                intro name hn
                rw [hmA] at hn
                have hmem := (List.mem_filter.mp hn).1
                simp at hmem
                subst hmem
                exact ⟨"ERROR: ", " parameter is required", rfl⟩
              · exfalso
                apply h
                simp [missingArgs, requiredArgsOf, c1, c2, c3, c4, c5, c6, c7]

/-- C2 witness: the specification's own example — `create-page` with only
`spaceKey` supplied fails with one message naming both `title` and `body`,
and the remote collaborator receives zero calls. -/
theorem C2_missing_args_reported_witness :
    missingArgs "create-page" [("spaceKey", Json.str "DOCS")] ≠ [] ∧
    ∃ msg, dispatchStep true "create-page" [("spaceKey", Json.str "DOCS")] "json"
        = .error msg ∧
      (∀ name ∈ missingArgs "create-page" [("spaceKey", Json.str "DOCS")],
        ContainsQuoted msg name) ∧
      (runCommandTrace (fun _ => "") (fun _ => .ok .null) true "create-page"
          [("spaceKey", Json.str "DOCS")] "json").1 = [] ∧
      (runCommandTrace (fun _ => "") (fun _ => .ok .null) true "create-page"
          [("spaceKey", Json.str "DOCS")] "json").2 = .stderr msg := by
  have hne : missingArgs "create-page" [("spaceKey", Json.str "DOCS")] ≠ [] := by decide
  exact ⟨hne, C2_missing_args_reported (fun _ => "") (fun _ => .ok .null)
    "create-page" [("spaceKey", Json.str "DOCS")] "json" hne⟩

/-! ## C8: the json rendering round-trips -/

/-- C8: `formatResult` under the `json` format is the stable 2-space-indented
serialization `formatAsJson`, and parsing that rendering back by standard
structural deserialization returns a value equal to the input, for every
JSON-representable value — empty objects, `null` and nested arrays included.
The first conjunct is the round-trip for the serializer itself; the second
identifies `formatResult _ "json"` with that serializer for every toon
encoder, so the third — the claim's own `formatResult` round-trip — holds for
every input. The serializer is a pure function of the value, so the data is
never mutated. The final three conjuncts exhibit the renderings of the
claim's named inputs: the empty object, `null`, and a nested example showing
the 2-space indentation. -/
theorem C8_json_roundtrip :
    (∀ j : Json, jsonParse (formatAsJson j) = some j) ∧
    (∀ (enc : Json → String) (j : Json), formatResult enc "json" j = formatAsJson j) ∧
    (∀ (enc : Json → String) (j : Json), jsonParse (formatResult enc "json" j) = some j) ∧
    formatAsJson (Json.obj []) = "\x7b\x7d" ∧
    formatAsJson Json.null = "null" ∧
    formatAsJson (Json.obj [("a", Json.arr [Json.num 1, Json.num 2]), ("b", Json.null)])
      = "\x7b\n  \"a\": [\n    1,\n    2\n  ],\n  \"b\": null\n\x7d" := by
  refine ⟨jsonParse_formatAsJson, ?_, ?_, rfl, rfl, rfl⟩
  · intro enc j
    simp [formatResult]
  · intro enc j
    rw [show formatResult enc "json" j = formatAsJson j by simp [formatResult]]
    exact jsonParse_formatAsJson j
